import Mathlib

set_option linter.unreachableTactic false
set_option linter.unusedTactic false
set_option linter.unnecessarySeqFocus false
set_option linter.unusedVariables false

/-!
Verification development for the marco embedded document database's
aggregation engine (package `marco`): a shallow embedding, in Lean 4, of the
pipeline runner `Query`, its parser/validators, and the aggregation stage
functions, together with theorems settling the spec claims.

Modelling conventions, used throughout:

* Go's dynamically typed JSON values (`interface{}` holding `nil`, `bool`,
  `float64`, `string`, `[]interface{}` or `map[string]interface{}`) are the
  inductive `Value`.  JSON decoding produces exactly these six shapes; the
  engine-internal slice type `[]map[string]interface{}` (produced e.g. by
  `$lookup`) is modelled as `.arr` of `.doc` values, so the Go-level type
  distinction between the two slice types is not modelled (no claim here
  depends on it).
* `float64` numbers are modelled as exact rationals `ℚ`.  The two operations
  whose float behaviour is irrelevant to every claim (`math.Sqrt` and `%v`
  formatting of numbers) are abstracted into a `GoFloatOps` record; all
  theorems hold for every instantiation.
* Go maps (`map[string]interface{}`) are association lists with distinct
  keys; `Doc.find?`, `Doc.insert`, `Doc.erase` model indexing, assignment and
  `delete`.  Where Go ranges over a map and the result depends on the
  (unspecified, randomized) iteration order, that order is supplied by a
  `Sched` record of order-choosing functions, constrained only to pick
  permutations; where the result is provably independent of the order, the
  list is traversed in place and a comment says so.
* Runtime panics (comparing uncomparable interface values, failed type
  assertions in `applyPipeline`) and Go `error` returns are both modelled
  with `Except String`.
-/

namespace Marco

/-- A JSON-style dynamic value: Go's `interface{}` after `json.Unmarshal`
(`nil`, `bool`, `float64`, `string`, `[]interface{}`,
`map[string]interface{}`). -/
inductive Value where
  | null : Value
  | bool : Bool → Value
  | num  : ℚ → Value
  | str  : String → Value
  | arr  : List Value → Value
  | doc  : List (String × Value) → Value

mutual

/-- Structural (deep) equality of values is decidable. -/
def Value.decEq : (a b : Value) → Decidable (a = b)
  | .null, .null => .isTrue rfl
  | .bool a, .bool b =>
    if h : a = b then .isTrue (by rw [h]) else .isFalse (fun hh => h (by cases hh; rfl))
  | .num a, .num b =>
    if h : a = b then .isTrue (by rw [h]) else .isFalse (fun hh => h (by cases hh; rfl))
  | .str a, .str b =>
    if h : a = b then .isTrue (by rw [h]) else .isFalse (fun hh => h (by cases hh; rfl))
  | .arr a, .arr b =>
    match Value.decEqList a b with
    | .isTrue h => .isTrue (by rw [h])
    | .isFalse h => .isFalse (fun hh => h (by cases hh; rfl))
  | .doc a, .doc b =>
    match Value.decEqDoc a b with
    | .isTrue h => .isTrue (by rw [h])
    | .isFalse h => .isFalse (fun hh => h (by cases hh; rfl))
  | .null, .bool _ => .isFalse (by intro h; cases h)
  | .null, .num _ => .isFalse (by intro h; cases h)
  | .null, .str _ => .isFalse (by intro h; cases h)
  | .null, .arr _ => .isFalse (by intro h; cases h)
  | .null, .doc _ => .isFalse (by intro h; cases h)
  | .bool _, .null => .isFalse (by intro h; cases h)
  | .bool _, .num _ => .isFalse (by intro h; cases h)
  | .bool _, .str _ => .isFalse (by intro h; cases h)
  | .bool _, .arr _ => .isFalse (by intro h; cases h)
  | .bool _, .doc _ => .isFalse (by intro h; cases h)
  | .num _, .null => .isFalse (by intro h; cases h)
  | .num _, .bool _ => .isFalse (by intro h; cases h)
  | .num _, .str _ => .isFalse (by intro h; cases h)
  | .num _, .arr _ => .isFalse (by intro h; cases h)
  | .num _, .doc _ => .isFalse (by intro h; cases h)
  | .str _, .null => .isFalse (by intro h; cases h)
  | .str _, .bool _ => .isFalse (by intro h; cases h)
  | .str _, .num _ => .isFalse (by intro h; cases h)
  | .str _, .arr _ => .isFalse (by intro h; cases h)
  | .str _, .doc _ => .isFalse (by intro h; cases h)
  | .arr _, .null => .isFalse (by intro h; cases h)
  | .arr _, .bool _ => .isFalse (by intro h; cases h)
  | .arr _, .num _ => .isFalse (by intro h; cases h)
  | .arr _, .str _ => .isFalse (by intro h; cases h)
  | .arr _, .doc _ => .isFalse (by intro h; cases h)
  | .doc _, .null => .isFalse (by intro h; cases h)
  | .doc _, .bool _ => .isFalse (by intro h; cases h)
  | .doc _, .num _ => .isFalse (by intro h; cases h)
  | .doc _, .str _ => .isFalse (by intro h; cases h)
  | .doc _, .arr _ => .isFalse (by intro h; cases h)

def Value.decEqList : (a b : List Value) → Decidable (a = b)
  | [], [] => .isTrue rfl
  | [], _ :: _ => .isFalse (by intro h; cases h)
  | _ :: _, [] => .isFalse (by intro h; cases h)
  | x :: xs, y :: ys =>
    match Value.decEq x y with
    | .isFalse h => .isFalse (fun hh => h (by cases hh; rfl))
    | .isTrue h1 =>
      match Value.decEqList xs ys with
      | .isTrue h2 => .isTrue (by rw [h1, h2])
      | .isFalse h2 => .isFalse (fun hh => h2 (by cases hh; rfl))

def Value.decEqDoc : (a b : List (String × Value)) → Decidable (a = b)
  | [], [] => .isTrue rfl
  | [], _ :: _ => .isFalse (by intro h; cases h)
  | _ :: _, [] => .isFalse (by intro h; cases h)
  | (k, v) :: xs, (k', v') :: ys =>
    if hk : k = k' then
      match Value.decEq v v' with
      | .isFalse h => .isFalse (fun hh => h (by cases hh; rfl))
      | .isTrue h1 =>
        match Value.decEqDoc xs ys with
        | .isTrue h2 => .isTrue (by rw [hk, h1, h2])
        | .isFalse h2 => .isFalse (fun hh => h2 (by cases hh; rfl))
    else .isFalse (fun hh => hk (by cases hh; rfl))

end

instance : DecidableEq Value := Value.decEq

/-- A document: Go's `map[string]interface{}`, as an association list with
distinct keys. -/
abbrev Doc := List (String × Value)

namespace Doc

/-- Go map indexing `d[k]`: `none` models `(zero, false)` for a missing key. -/
def find? (d : Doc) (k : String) : Option Value :=
  List.lookup k d

/-- Go map assignment `d[k] = v`: replaces an existing binding in place,
otherwise appends.  (Go maps are unordered; any position works, this choice
keeps documents canonical.) -/
def insert (d : Doc) (k : String) (v : Value) : Doc :=
  match d with
  | [] => [(k, v)]
  | (k', v') :: rest =>
    if k' = k then (k, v) :: rest else (k', v') :: insert rest k v

/-- Go `delete(d, k)`. -/
def erase (d : Doc) (k : String) : Doc :=
  d.filter (fun kv => kv.1 ≠ k)

end Doc

/-! ### String primitives

Go's byte-wise `strings` helpers, implemented over the character list so
that concrete instances compute inside proofs (byte-wise and
code-point-wise agree on UTF-8). -/

/-- `strings.HasPrefix`. -/
def strStartsWith (s p : String) : Bool :=
  go s.toList p.toList
where
  go : List Char → List Char → Bool
    | _, [] => true
    | [], _ :: _ => false
    | c :: cs, d :: ds => if c = d then go cs ds else false

/-- `s[n:]` / `strings.TrimPrefix`'s residue: drop the first `n`
characters. -/
def strDrop (s : String) (n : ℕ) : String :=
  (s.toList.drop n).asString

/-- `strings.TrimSpace` (ASCII whitespace; Go also trims other Unicode
space, which no claim exercises). -/
def trimSpace (s : String) : String :=
  (((s.toList.dropWhile isSpaceChar).reverse.dropWhile isSpaceChar).reverse).asString
where
  isSpaceChar (c : Char) : Bool := c = ' ' ∨ c = '\t' ∨ c = '\n' ∨ c = '\r'

/-- `strings.Split(s, ".")`. -/
def splitOnDot (s : String) : List String :=
  (splitChars s.toList).map List.asString
where
  splitChars : List Char → List (List Char)
    | [] => [[]]
    | c :: cs =>
      if c = '.' then [] :: splitChars cs
      else
        match splitChars cs with
        | [] => [[c]]
        | g :: gs => (c :: g) :: gs


/-- Whether a value's dynamic type is comparable in Go's `==` sense: scalars
are, slices and maps are not (comparing them panics; using them as map keys
panics). -/
def Value.comparable : Value → Bool
  | .arr _ => false
  | .doc _ => false
  | _ => true

/-- Go interface equality `x == y`: `true`/`false` when at least one side is
a scalar (different dynamic types are simply unequal), a runtime panic —
modelled as `.error` — when both sides are slices or both are maps
(uncomparable dynamic types). -/
def goEq : Value → Value → Except String Bool
  | .null, .null => .ok true
  | .bool a, .bool b => .ok (a = b)
  | .num a, .num b => .ok (a = b)
  | .str a, .str b => .ok (a = b)
  | .arr _, .arr _ => .error "runtime error: comparing uncomparable type []interface {}"
  | .doc _, .doc _ => .error "runtime error: comparing uncomparable type map[string]interface {}"
  | _, _ => .ok false

/-- `strconv.ParseFloat` on the decimal grammar `[+-]digits[.digits][e[+-]digits]`.
(The Go parser also accepts hex floats, `inf`/`nan` and digit underscores;
no claim depends on which strings parse, only that `.num` values always
convert and that the modelled conversion is a fixed total function.) -/
def parseRat (s : String) : Option ℚ :=
  let chars := s.toList
  let (sign, rest) :=
    match chars with
    | '+' :: cs => ((1 : ℚ), cs)
    | '-' :: cs => ((-1 : ℚ), cs)
    | cs => ((1 : ℚ), cs)
  let digitsOf (cs : List Char) : Option ℕ :=
    if cs.isEmpty then none
    else if cs.all (·.isDigit) then
      some (cs.foldl (fun n c => n * 10 + (c.toNat - '0'.toNat)) 0)
    else none
  let mantissa (cs : List Char) : Option ℚ :=
    match cs.span (· ≠ '.') with
    | (intPart, []) => (digitsOf intPart).map (fun n => (n : ℚ))
    | (intPart, _dot :: fracPart) =>
      match digitsOf intPart, digitsOf fracPart with
      | some n, some f => some ((n : ℚ) + (f : ℚ) / (10 : ℚ) ^ fracPart.length)
      | _, _ => none
  match rest.span (fun c => c ≠ 'e' ∧ c ≠ 'E') with
  | (mant, []) => (mantissa mant).map (sign * ·)
  | (mant, _e :: expPart) =>
    let (esign, edigits) :=
      match expPart with
      | '+' :: cs => ((1 : ℤ), cs)
      | '-' :: cs => ((-1 : ℤ), cs)
      | cs => ((1 : ℤ), cs)
    match mantissa mant, digitsOf edigits with
    | some m, some e => some (sign * m * (10 : ℚ) ^ (esign * e))
    | _, _ => none

/-- `toFloat64` (query_helpers.go): casts a value to `float64`; numbers
convert directly, strings through `strconv.ParseFloat`, everything else
fails.  (The Go integer cases cannot arise after JSON decoding.) -/
def toFloat64 : Value → Option ℚ
  | .num q => some q
  | .str s => parseRat s
  | _ => none

/-- Option-level version of Go's common idiom `v, ok := toFloat64(x)` where
`x` itself came from a map lookup that may have missed. -/
def toFloat64? (v : Option Value) : Option ℚ :=
  match v with
  | none => none
  | some x => toFloat64 x

/-- `getNestedField` (query_helpers.go): dotted-path read.  Go traverses
`map[string]interface{}` levels and the engine-internal
`[]map[string]interface{}` slice type; JSON-decoded arrays
(`[]interface{}`) hit the default branch and yield `nil`.  Our `Value.arr`
models the JSON-decoded slice, hence returns `.null` here. -/
def getNestedFieldGo : Value → List String → Value
  | cur, [] => cur
  | cur, p :: ps =>
    match cur with
    | .doc d =>
      match (Doc.find? d p).getD .null with
      | .null => .null
      | next => getNestedFieldGo next ps
    | _ => .null

/-- `getNestedField doc field`: split `field` on `.` and walk. -/
def getNestedField (d : Doc) (field : String) : Value :=
  getNestedFieldGo (.doc d) (splitOnDot field)

/-- `getNestedFieldExists` (query_helpers.go): like `getNestedField` but
reporting presence; only descends through nested documents. -/
def getNestedFieldExists (d : Doc) (path : String) : Option Value :=
  go d (splitOnDot path)
where
  go (cur : Doc) : List String → Option Value
    | [] => none
    | [p] => Doc.find? cur p
    | p :: ps =>
      match Doc.find? cur p with
      | some (.doc nested) => go nested ps
      | _ => none

/-- `toBool` (query_stage_project.go): Go truthiness used by `$and`/`$or`/
`$not`/`$cond`. -/
def toBool : Value → Bool
  | .bool b => b
  | .num q => q ≠ 0
  | .null => false
  | .str s => s ≠ ""
  | _ => false

/-- The floating-point-specific operations the engine uses, abstracted:
every theorem below holds for any instantiation.
`fmtF` is `fmt.Sprintf("%v", x)` on a `float64`; `sqrtF` is `math.Sqrt`;
`fmtDate` is `formatDate` (query_helpers.go, time parsing/formatting);
`regexF` is `regexp.MatchString pattern s` (`false` also covers a pattern
compile error). -/
structure GoFloatOps where
  fmtF : ℚ → String
  sqrtF : ℚ → ℚ
  fmtDate : Value → String → String
  regexF : String → String → Bool

mutual

/-- `fmt.Sprintf("%v", v)` on a dynamic value: exact for strings, booleans
and `nil`; numbers go through the abstracted `fmtF`; composites use Go's
`[e1 e2]` / `map[k:v]` shapes (no claim depends on the composite cases). -/
def goFmtV (F : GoFloatOps) : Value → String
  | .null => "<nil>"
  | .bool b => if b then "true" else "false"
  | .num q => F.fmtF q
  | .str s => s
  | .arr l => "[" ++ String.intercalate " " (goFmtVList F l) ++ "]"
  | .doc d => "map[" ++ String.intercalate " " (goFmtVDoc F d) ++ "]"

def goFmtVList (F : GoFloatOps) : List Value → List String
  | [] => []
  | v :: vs => goFmtV F v :: goFmtVList F vs

def goFmtVDoc (F : GoFloatOps) : List (String × Value) → List String
  | [] => []
  | (k, v) :: kvs => (k ++ ":" ++ goFmtV F v) :: goFmtVDoc F kvs

end

/-- `math.Mod` (truncated toward zero, sign of the dividend), on exact
rationals. -/
def goMod (l r : ℚ) : ℚ :=
  l - r * ((if l / r ≥ 0 then ⌊l / r⌋ else ⌈l / r⌉ : ℤ) : ℚ)

/-- `extractSubstring` (query_helpers.go).  Go slices the string by bytes;
we slice by characters, which coincides on ASCII (no claim exercises it). -/
def extractSubstring (str : Value) (start length : ℤ) (F : GoFloatOps) : String :=
  let strVal := goFmtV F str
  let n : ℤ := strVal.length
  if start < 0 ∨ start ≥ n then ""
  else
    let e := min (start + length) n
    ((strVal.toList.drop start.toNat).take (e - start).toNat).asString

/-- The scheduler: one function per kind of Go-map iteration whose order is
observable, plus the `math/rand` source.  A real execution corresponds to
some `Sched` (validity below); nondeterminism of the program = quantification
over scheds. -/
structure Sched where
  /-- iteration order chosen when ranging over a params map. -/
  mapOrder : List (String × Value) → List (String × Value)
  /-- iteration order chosen when ranging over the `$group` partition map. -/
  groupOrder : List (Value × List Doc) → List (Value × List Doc)
  /-- iteration order for value-keyed count maps (`$sortByCount`). -/
  countOrder : List (Value × ℕ) → List (Value × ℕ)
  /-- iteration order for value sets (`$addToSet`). -/
  valOrder : List Value → List Value
  /-- the `i`-th pseudo-random draw inside one stage call; callers reduce it
  mod the required bound, so every in-range outcome of `rand.Intn` is
  reachable and only in-range outcomes are. -/
  randSeq : ℕ → ℕ

/-- A `Sched` is a possible execution: each order-choosing function returns a
permutation of its input. -/
def ValidSched (σ : Sched) : Prop :=
  (∀ m, (σ.mapOrder m).Perm m) ∧
  (∀ g, (σ.groupOrder g).Perm g) ∧
  (∀ c, (σ.countOrder c).Perm c) ∧
  (∀ v, (σ.valOrder v).Perm v)

/-- The schedule that keeps every map in encounter order and always draws 0:
one concrete valid execution. -/
def idSched : Sched :=
  { mapOrder := id, groupOrder := id, countOrder := id, valOrder := id,
    randSeq := fun _ => 0 }

theorem idSched_valid : ValidSched idSched :=
  ⟨fun _ => List.Perm.refl _, fun _ => List.Perm.refl _,
   fun _ => List.Perm.refl _, fun _ => List.Perm.refl _⟩

/-! ### Numeric conversions shared by several stages -/

/-- Go's `int(f)` conversion of a `float64`: truncation toward zero. -/
def ratTrunc (q : ℚ) : ℤ :=
  if q ≥ 0 then ⌊q⌋ else ⌈q⌉

/-- `math.Round`: round half away from zero. -/
def ratRound (q : ℚ) : ℤ :=
  if q ≥ 0 then ⌊q + 1/2⌋ else -⌊-q + 1/2⌋

/-- `valStr, ok := val.(string); ok && strings.HasPrefix(valStr, "$")` — the
field-reference test shared by the `$group` accumulator helpers. -/
def isFieldRef : Value → Bool
  | .str s => strStartsWith s "$"
  | _ => false

/-- `strings.TrimPrefix(valStr, "$")` for a value already known to be a
`$`-string. -/
def refField : Value → String
  | .str s => strDrop s 1
  | _ => ""

/-! ### Go's sorting, modelled

Two sorting models are used.

`insSort` below is a whole-list insertion sort with exactly Go's
`insertionSort` inner loop (the new element bubbles left while
`less(data[j], data[j-1])`), phrased over lists.  It models `sort.Slice`
(unstable), which the engine only applies to `[]float64` with a strict
numeric comparator, where every sorting algorithm produces the same list.
It is also the function `sort.SliceStable` degenerates to on at most 20
elements, which the `stableGo` development below proves.

`sort.SliceStable` itself — Go sort.go's `stable`: `insertionSort` over
20-element blocks, then `symMerge` passes of doubling width — is embedded
index-for-index as `stableGo` in the `$sort` section, because for more than
20 elements and a comparator that is not a strict weak order (the `$sort`
comparator's numeric/string fallback admits cycles) the symmerge path can
diverge from a plain insertion sort. -/

/-- Insert `e` into the already-placed prefix `acc` (held in reverse): `e`
bubbles left over elements `x` while `less e x`, exactly Go's insertion-sort
inner loop. -/
def insertLast {α : Type} (less : α → α → Bool) (e : α) : List α → List α
  | [] => [e]
  | x :: xs => if less e x then x :: insertLast less e xs else e :: x :: xs

/-- Process the input left to right, keeping the placed prefix reversed. -/
def sortCore {α : Type} (less : α → α → Bool) : List α → List α → List α
  | acc, [] => acc
  | acc, d :: ds => sortCore less (insertLast less d acc) ds

/-- The insertion sort described above. -/
def insSort {α : Type} (less : α → α → Bool) (l : List α) : List α :=
  (sortCore less [] l).reverse

/-- `sort.Float64s` ascending (unique result on rationals). -/
def sortRatsAsc (l : List ℚ) : List ℚ := insSort (fun a b => decide (a < b)) l

/-- `sort.Slice` descending by `>` on floats (unique result on rationals). -/
def sortRatsDesc (l : List ℚ) : List ℚ := insSort (fun a b => decide (a > b)) l

/-! ### `math/rand`, modelled -/

/-- The `swap(i, j)` closure handed to `rand.Shuffle`: exchange two
positions (total: out-of-range indices, which never occur, leave the list
unchanged). -/
def swapList {α : Type} (l : List α) (i j : ℕ) : List α :=
  match l[i]?, l[j]? with
  | some xi, some xj => (l.set i xj).set j xi
  | _, _ => l

/-- `rand.Shuffle(n, swap)`: `for i := n-1; i > 0; i-- { j := Intn(i+1); swap(i, j) }`,
with the `i`-th draw supplied by `r` and reduced mod `i+1`. -/
def shuffleAux {α : Type} (r : ℕ → ℕ) : ℕ → List α → List α
  | 0, l => l
  | i + 1, l => shuffleAux r i (swapList l (i + 1) (r (i + 1) % (i + 2)))

/-- The full shuffle of a list of length `n` starts at `i = n-1`. -/
def shuffleGo {α : Type} (r : ℕ → ℕ) (l : List α) : List α :=
  shuffleAux r (l.length - 1) l

/-! ### The storage collaborator -/

/-- The storage collaborator, reduced to the one interface the engine
consumes: `FetchCollection(name) -> sequence of Document`.  `DB.Collection`
(marco.go) prefix-scans Badger and JSON-decodes every stored document; a
nonexistent or empty collection yields an empty sequence with a `nil`
error.  Storage-level read failures are outside this model, so the error
component is always `nil` (`.ok`). -/
structure DB where
  colls : List (String × List Doc)

/-- `db.Collection(name)` (marco.go). -/
def DB.Collection (db : DB) (name : String) : Except String (List Doc) :=
  .ok ((List.lookup name db.colls).getD [])

/-! ### `$limit` and `$skip` (query_stage_limit.go, query_core.go) -/

/-- `limitStage`: extract the limit from the `$limit` key, falling back to
`value`; unparsable ⇒ input unchanged; `limit <= 0` ⇒ empty; `limit >= len`
⇒ unchanged; else the first `limit` documents. -/
def limitStage (input : List Doc) (params : Doc) : List Doc :=
  let limitFloat? :=
    match toFloat64? (Doc.find? params "$limit") with
    | some f => some f
    | none => toFloat64? (Doc.find? params "value")
  match limitFloat? with
  | none => input
  | some limitFloat =>
    let limit : ℤ := ratTrunc limitFloat
    if limit ≤ 0 then []
    else if limit ≥ input.length then input
    else input.take limit.toNat

/-- `validateLimitStage`: the validator reads only the `value` key and
requires a nonnegative `float64` (the `$limit`-key asymmetry flagged in the
spec's §9). -/
def validateLimitStage (params : Doc) : Except String Unit :=
  match Doc.find? params "value" with
  | some (.num v) =>
    if v < 0 then .error "$limit value must be non-negative" else .ok ()
  | _ => .error "$limit must have a numeric value"

/-- `skipStage` (query_core.go): extract from `$skip` then `value`;
unparsable ⇒ input unchanged (logged); `n := int(max(0, floor(skip)))`;
`n > len` ⇒ empty; else drop the first `n`. -/
def skipStage (input : List Doc) (params : Doc) : List Doc :=
  let skip? :=
    match toFloat64? (Doc.find? params "$skip") with
    | some f => some f
    | none => toFloat64? (Doc.find? params "value")
  match skip? with
  | none => input
  | some skip =>
    let n : ℕ := (max 0 ⌊skip⌋).toNat
    if n > input.length then []
    else input.drop n

/-- `validateSkipStage`: `value` must be a nonnegative `float64`. -/
def validateSkipStage (params : Doc) : Except String Unit :=
  match Doc.find? params "value" with
  | some (.num v) =>
    if v < 0 then .error "$skip value must be non-negative" else .ok ()
  | _ => .error "$skip must have a numeric value"

/-! ### `$sort` (unnamed sort file, `sortStage`) -/

/-- The comparator closure handed to `sort.SliceStable`, iterating the sort
keys in the order `ks` (the unspecified map-iteration order of the params
map).  Non-`float64` directions are skipped; numeric comparison is used when
both field values convert, otherwise `fmt.Sprintf("%v")` string comparison;
any direction other than `1` sorts descending; ties fall through to the next
key, exhausted keys yield `false`. -/
def sortLess (F : GoFloatOps) : List (String × Value) → Doc → Doc → Bool
  | [], _, _ => false
  | (field, dir) :: rest, a, b =>
    match dir with
    | .num dq =>
      let iVal := (Doc.find? a field).getD .null
      let jVal := (Doc.find? b field).getD .null
      match toFloat64 iVal, toFloat64 jVal with
      | some iNum, some jNum =>
        if iNum = jNum then sortLess F rest a b
        else if dq = 1 then decide (iNum < jNum) else decide (iNum > jNum)
      | _, _ =>
        let iStr := goFmtV F iVal
        let jStr := goFmtV F jVal
        if iStr = jStr then sortLess F rest a b
        else if dq = 1 then decide (iStr < jStr) else decide (iStr > jStr)
    | _ => sortLess F rest a b

/-! `sort.SliceStable`, embedded index-for-index from Go sort.go (`stable`,
`insertionSort`, `symMerge`, `rotate`, `swapRange`).  The slice is a
`List Doc` indexed by position; `data[i]` is `dget`, `data.Swap(i, j)` is
`swapList` (whose out-of-range guard never fires on the in-range indices
these loops produce).  Three guards below exclude only argument tuples the
algorithm never produces (where Go's own loops would not terminate either);
each is noted at its definition. -/

/-- `data[i]` of the slice being sorted (never out of range in Go). -/
def dget (l : List Doc) (i : ℕ) : Doc := (l[i]?).getD []

/-- `insertionSort`'s inner loop:
`for j := i; j > a && data.Less(j, j-1); j-- { data.Swap(j, j-1) }`. -/
def insBubble (less : Doc → Doc → Bool) (a : ℕ) : ℕ → List Doc → List Doc
  | 0, l => l
  | j + 1, l =>
    if a < j + 1 ∧ less (dget l (j + 1)) (dget l j) = true then
      insBubble less a j (swapList l (j + 1) j)
    else l

/-- `insertionSort`'s outer loop: `for i := a + 1; i < b; i++`. -/
def insLoop (less : Doc → Doc → Bool) (a b : ℕ) : ℕ → List Doc → List Doc
  | i, l => if i < b then insLoop less a b (i + 1) (insBubble less a i l) else l
termination_by i _ => b - i
decreasing_by all_goals (simp_wf; omega)

/-- `insertionSort(data, a, b)` (sort.go). -/
def insertionSortGo (less : Doc → Doc → Bool) (a b : ℕ) (l : List Doc) : List Doc :=
  insLoop less a b (a + 1) l

/-- `swapRange(data, a, b, n)`: `for i := 0; i < n; i++ { data.Swap(a+i, b+i) }`. -/
def swapRange : List Doc → ℕ → ℕ → ℕ → List Doc
  | l, _, _, 0 => l
  | l, a, b, n + 1 => swapRange (swapList l a b) (a + 1) (b + 1) n

/-- `rotate`'s gcd-style loop: `i, j := m-a, b-m; for i != j { ... }` then a
final `swapRange`.  The `0 < i ∧ 0 < j` conjuncts only exclude states the
algorithm never reaches (`rotate` is called with `a < m < b`, and the loop
keeps both positive); on them Go's own loop would not terminate. -/
def rotateLoop (m : ℕ) : ℕ → ℕ → List Doc → List Doc
  | i, j, l =>
    if h : i ≠ j ∧ 0 < i ∧ 0 < j then
      if hij : i > j then rotateLoop m (i - j) j (swapRange l (m - i) m j)
      else rotateLoop m i (j - i) (swapRange l (m - i) (m + j - i) i)
    else swapRange l (m - i) m i
termination_by i j _ => i + j
decreasing_by all_goals (simp_wf; omega)

/-- `rotate(data, a, m, b)` (sort.go). -/
def rotate (l : List Doc) (a m b : ℕ) : List Doc := rotateLoop m (m - a) (b - m) l

/-- The binary search of `symMerge`'s `m-a == 1` case: lowest `i` in `[m, b)`
with the probed `data.Less(h, a)` tests false. -/
def symSearch1 (less : Doc → Doc → Bool) (l : List Doc) (a : ℕ) : ℕ → ℕ → ℕ
  | i, j =>
    if i < j then
      let h := (i + j) / 2
      if less (dget l h) (dget l a) then symSearch1 less l a (h + 1) j
      else symSearch1 less l a i h
    else i
termination_by i j => j - i
decreasing_by all_goals (simp_wf; omega)

/-- The binary search of `symMerge`'s `b-m == 1` case
(`if !data.Less(m, h) { i = h+1 } else { j = h }`). -/
def symSearch2 (less : Doc → Doc → Bool) (l : List Doc) (m : ℕ) : ℕ → ℕ → ℕ
  | i, j =>
    if i < j then
      let h := (i + j) / 2
      if less (dget l m) (dget l h) then symSearch2 less l m i h
      else symSearch2 less l m (h + 1) j
    else i
termination_by i j => j - i
decreasing_by all_goals (simp_wf; omega)

/-- The middle binary search of `symMerge`
(`if !data.Less(p-c, c) { start = c+1 } else { r = c }`). -/
def symSearchM (less : Doc → Doc → Bool) (l : List Doc) (p : ℕ) : ℕ → ℕ → ℕ
  | start, r =>
    if start < r then
      let c := (start + r) / 2
      if less (dget l (p - c)) (dget l c) then symSearchM less l p start c
      else symSearchM less l p (c + 1) r
    else start
termination_by start r => r - start
decreasing_by all_goals (simp_wf; omega)

/-- `for k := a; k < i-1; k++ { data.Swap(k, k+1) }` (`stop` is `i-1`). -/
def swapFwd (stop : ℕ) : ℕ → List Doc → List Doc
  | k, l => if k < stop then swapFwd stop (k + 1) (swapList l k (k + 1)) else l
termination_by k _ => stop - k
decreasing_by all_goals (simp_wf; omega)

/-- `for k := m; k > i; k-- { data.Swap(k, k-1) }`. -/
def swapBwd (i : ℕ) : ℕ → List Doc → List Doc
  | k, l => if i < k then swapBwd i (k - 1) (swapList l k (k - 1)) else l
termination_by k _ => k
decreasing_by all_goals (simp_wf; omega)

/-- `symMerge(data, a, m, b)` (sort.go): the two single-element
direct-insertion cases, then the symmetric binary search, the rotation, and
the two recursive calls.  The `a < mid` guard on the second recursion only
excludes degenerate tuples `stable` never produces (every recursing call has
`b ≥ a + 4`, hence `a < mid`); it is needed for the termination measure. -/
def symMergeGo (less : Doc → Doc → Bool) : ℕ → ℕ → ℕ → List Doc → List Doc
  | a, m, b, l =>
    if m - a = 1 then
      swapFwd (symSearch1 less l a m b - 1) a l
    else if b - m = 1 then
      swapBwd (symSearch2 less l m a m) m l
    else
      let mid := (a + b) / 2
      let n := mid + m
      let p := n - 1
      let start :=
        if m > mid then symSearchM less l p (n - b) mid
        else symSearchM less l p a m
      let e := n - start
      let l1 := if start < m ∧ m < e then rotate l start m e else l
      let l2 := if h2 : a < start ∧ start < mid then symMergeGo less a start mid l1 else l1
      if h3 : mid < e ∧ e < b then
        if h4 : a < mid then symMergeGo less mid e b l2 else l2
      else l2
termination_by a m b _ => b - a
decreasing_by all_goals (simp_wf; omega)

/-- `stable`'s first phase: `a, b := 0, 20; for b <= n { insertionSort(a, b);
a, b = b, b+20 }; insertionSort(a, n)`. -/
def stableBlocksLoop (less : Doc → Doc → Bool) (n : ℕ) : ℕ → ℕ → List Doc → List Doc
  | a, b, l =>
    if b ≤ n then stableBlocksLoop less n b (b + 20) (insertionSortGo less a b l)
    else insertionSortGo less a n l
termination_by a b _ => n + 20 - b
decreasing_by all_goals (simp_wf; omega)

/-- One merging pass at width `bs`: `a, b = 0, 2*bs; for b <= n {
symMerge(a, a+bs, b); a, b = b, b+2*bs }; if a+bs < n { symMerge(a, a+bs, n) }`.
The `0 < bs` conjunct only excludes `bs = 0`, which `stable` never produces
(it starts at 20 and doubles) and on which Go's loop would not advance. -/
def mergePassLoop (less : Doc → Doc → Bool) (n bs : ℕ) : ℕ → ℕ → List Doc → List Doc
  | a, b, l =>
    if h : 0 < bs ∧ b ≤ n then
      mergePassLoop less n bs b (b + 2 * bs) (symMergeGo less a (a + bs) b l)
    else if a + bs < n then symMergeGo less a (a + bs) n l
    else l
termination_by a b _ => n + 2 * bs + 1 - b
decreasing_by all_goals (simp_wf; omega)

/-- `stable`'s merging phase: `for bs < n { pass; bs *= 2 }` (the `0 < bs`
conjunct as in `mergePassLoop`, unreachable from the entry value 20). -/
def mergePhase (less : Doc → Doc → Bool) (n : ℕ) : ℕ → List Doc → List Doc
  | bs, l =>
    if h : 0 < bs ∧ bs < n then
      mergePhase less n (2 * bs) (mergePassLoop less n bs 0 (2 * bs) l)
    else l
termination_by bs _ => n - bs
decreasing_by all_goals (simp_wf; omega)

/-- `sort.SliceStable` = `stable(lessSwap(less), n)` (sort.go): block
insertion sorts, then the merging phase, `blockSize = 20`. -/
def stableGo (less : Doc → Doc → Bool) (l : List Doc) : List Doc :=
  mergePhase less l.length 20 (stableBlocksLoop less l.length 0 20 l)

/-- `sortStage`: copy the input and `sort.SliceStable` it under the
comparator above.  The comparator ranges over the params map on every
invocation; we model one iteration order `σ.mapOrder params` chosen for the
whole call (Go may even vary the order between comparisons — every theorem
below either holds for all orders or exhibits two orders). -/
def sortStage (F : GoFloatOps) (σ : Sched) (input : List Doc) (params : Doc) : List Doc :=
  stableGo (sortLess F (σ.mapOrder params)) input

/-- `validateSortStage`: nonempty, every direction a numeric `1` or `-1`. -/
def validateSortStage (params : Doc) : Except String Unit :=
  if params.length = 0 then .error "$sort stage must not be empty"
  else go params
where
  go : List (String × Value) → Except String Unit
    | [] => .ok ()
    | (field, val) :: rest =>
      match val with
      | .num v =>
        if v ≠ 1 ∧ v ≠ -1 then
          .error ("$sort field " ++ field ++ " must be either 1 or -1")
        else go rest
      | _ => .error ("$sort field " ++ field ++ " must have a numeric value (1 or -1)")

/-! ### `$sample` (unnamed sample file) -/

/-- The partial Fisher–Yates loop of `sampleStage`: draw `k` more elements,
`i` past draws already made; `j := Intn(len(temp))`, move the last element
into slot `j`, shrink.  (The `.getD` defaults are unreachable: `j` is always
in range and `temp` nonempty.) -/
def fisherYates (r : ℕ → ℕ) : ℕ → ℕ → List Doc → List Doc
  | _, 0, _ => []
  | _, _ + 1, [] => []
  | i, k + 1, temp@(_ :: _) =>
    let j := r i % temp.length
    let picked := (temp[j]?).getD []
    let temp' := (temp.set j ((temp.getLast?).getD [])).dropLast
    picked :: fisherYates r (i + 1) k temp'

/-- `sampleStage`: requires a numeric `size`; `n := int(max(0, floor(size)))`;
`n = 0` ⇒ empty; `n >= len` ⇒ full shuffle of a copy; else partial
Fisher–Yates sample of `n` documents. -/
def sampleStage (σ : Sched) (input : List Doc) (params : Doc) : Except String (List Doc) :=
  match Doc.find? params "size" with
  | none => .error "$sample stage requires a 'size' parameter"
  | some sizeVal =>
    match toFloat64 sizeVal with
    | none => .error "$sample 'size' parameter must be a number"
    | some size =>
      let n : ℕ := (max 0 ⌊size⌋).toNat
      if n = 0 then .ok []
      else if n ≥ input.length then .ok (shuffleGo σ.randSeq input)
      else .ok (fisherYates σ.randSeq 0 n input)

/-- `validateSampleStage`: `size` present, numeric, positive. -/
def validateSampleStage (params : Doc) : Except String Unit :=
  match Doc.find? params "size" with
  | none => .error "$sample stage requires a 'size' parameter"
  | some sizeVal =>
    match toFloat64 sizeVal with
    | none => .error "$sample 'size' parameter must be a number"
    | some size =>
      if size ≤ 0 then .error "$sample 'size' parameter must be a positive number"
      else .ok ()

/-! ### `$lookup` (query_stage_lookup.go) -/

/-- The validated `$lookup` configuration. -/
structure LookupParameters where
  fromColl : String
  localField : String
  foreignField : String
  asField : String

/-- `validateLookupParams`: all four keys present as nonempty strings. -/
def validateLookupParams (params : Doc) : Except String LookupParameters :=
  match Doc.find? params "from", Doc.find? params "localField",
        Doc.find? params "foreignField", Doc.find? params "as" with
  | some (.str f), some (.str l), some (.str g), some (.str a) =>
    if f = "" ∨ l = "" ∨ g = "" ∨ a = "" then
      .error "lookup parameters cannot be empty strings"
    else .ok ⟨f, l, g, a⟩
  | _, _, _, _ => .error "invalid lookup parameters: missing or incorrect type"

/-- `deepCopyDocument`: copies every top-level binding into a fresh map —
despite its name a *shallow* copy.  As a map value the copy equals the
original, so in this embedding it is the identity. -/
def deepCopyDocument (d : Doc) : Doc := d

/-- `findMatchingDocuments`: missing local field ⇒ empty; otherwise every
foreign document whose `foreignField` value is Go-`==`-equal to the local
value (comparing two composite values of the same kind panics). -/
def findMatchingDocuments (d : Doc) (foreignCollection : List Doc)
    (localField foreignField : String) : Except String (List Doc) :=
  match Doc.find? d localField with
  | none => .ok []
  | some localValue =>
    foreignCollection.foldlM
      (fun acc fd => do
        let eq ← goEq ((Doc.find? fd foreignField).getD .null) localValue
        .ok (if eq then acc ++ [deepCopyDocument fd] else acc))
      []

/-- `lookupStage`: invalid parameters degrade to the unchanged input
(logged); the foreign collection is fetched (never an error in this model,
see `DB.Collection`); each input document gets the matched (possibly empty)
array under `as` on a shallow copy of itself. -/
def lookupStage (db : DB) (input : List Doc) (params : Doc) : Except String (List Doc) :=
  match validateLookupParams params with
  | .error _ => .ok input
  | .ok lp =>
    match db.Collection lp.fromColl with
    | .error _ => .ok input
    | .ok foreignCollection =>
      input.mapM (fun d => do
        let matched ← findMatchingDocuments d foreignCollection lp.localField lp.foreignField
        .ok ((deepCopyDocument d).insert lp.asField (.arr (matched.map Value.doc))))

/-- `validateLookupStage`: the four required keys, each a string. -/
def validateLookupStage (params : Doc) : Except String Unit :=
  go ["from", "localField", "foreignField", "as"]
where
  go : List String → Except String Unit
    | [] => .ok ()
    | field :: rest =>
      match Doc.find? params field with
      | none => .error ("$lookup is missing required field: " ++ field)
      | some (.str _) => go rest
      | some _ => .error ("$lookup field " ++ field ++ " must be a string")

/-! ### `$addFields` / `$set` (second half of query_stage_lookup.go) -/

/-- `isValidExpressionOperator`: the `$addFields` expression sublanguage
currently supports `$concat` and `$toString` only. -/
def isValidExpressionOperator (op : String) : Bool :=
  op = "$concat" ∨ op = "$toString"

mutual

/-- The `DB.evaluateExpression` *method* (distinct from the standalone
`evaluateExpression` used by `$project`): `$`-strings resolve by top-level
map access (missing ⇒ `nil`); plain strings and scalars (including `nil`)
are themselves; a one-key operator object dispatches on `$concat`/
`$toString`; arrays are an unsupported expression type. -/
def dbEvaluateExpression (F : GoFloatOps) (d : Doc) : Value → Except String Value
  | .str v =>
    if strStartsWith v "$" then
      let fieldName := strDrop v 1
      match Doc.find? d fieldName with
      | none => .ok .null
      | some value => .ok value
    else .ok (.str v)
  | .doc v =>
    match v with
    | [(op, ps)] =>
      if isValidExpressionOperator op then
        if op = "$concat" then exprConcat F d ps
        else exprToString F d ps
      else .error ("unsupported expression operator: " ++ op)
    | _ => .error "invalid expression object"
  | .num q => .ok (.num q)
  | .bool b => .ok (.bool b)
  | .null => .ok .null
  | .arr _ => .error "unsupported expression type: []interface {}"

/-- `exprConcat`: evaluate each part against the document, render `nil` as
`""` and everything else as `fmt.Sprintf("%v", ·)`, and concatenate. -/
def exprConcat (F : GoFloatOps) (d : Doc) (ps : Value) : Except String Value :=
  match ps with
  | .arr parts => do
    let s ← concatParts F d parts
    .ok (.str s)
  | _ => .error "$concat expects an array of expressions"

def concatParts (F : GoFloatOps) (d : Doc) : List Value → Except String String
  | [] => .ok ""
  | p :: rest => do
    let v ← dbEvaluateExpression F d p
    let s := match v with
      | .null => ""
      | v => goFmtV F v
    let more ← concatParts F d rest
    .ok (s ++ more)

/-- `exprToString`: evaluate, then render: `nil` ⇒ `""`, strings as
themselves, numbers and booleans via `%v`; composites cannot convert. -/
def exprToString (F : GoFloatOps) (d : Doc) (ps : Value) : Except String Value := do
  let value ← dbEvaluateExpression F d ps
  match value with
  | .null => .ok (.str "")
  | .str s => .ok (.str s)
  | .num q => .ok (.str (F.fmtF q))
  | .bool b => .ok (.str (if b then "true" else "false"))
  | .arr _ => .error "$toString cannot convert type: []interface {}"
  | .doc _ => .error "$toString cannot convert type: map[string]interface {}"

end

/-- `validateAddFieldsStage`: nonempty params; field names nonblank; a
`$`-string must have a nonempty reference; `nil` is the one unsupported
expression type after JSON decoding.  (Go ranges over the map, so *which*
offending field is reported may vary; whether an error is reported does
not.) -/
def validateAddFieldsStage (params : Doc) : Except String Unit :=
  if params.length = 0 then .error "$addFields/$set stage must not be empty"
  else go params
where
  go : List (String × Value) → Except String Unit
    | [] => .ok ()
    | (fieldName, expr) :: rest =>
      if trimSpace fieldName = "" then
        .error "$addFields/$set field name must be a non-empty string"
      else
        match expr with
        | .str s =>
          if strStartsWith s "$" ∧ strDrop s 1 = "" then
            .error ("$addFields/$set stage has an invalid field reference for field '"
              ++ fieldName ++ "'")
          else go rest
        | .num _ | .bool _ | .doc _ | .arr _ => go rest
        | .null =>
          .error ("$addFields/$set stage has unsupported expression type for field '"
            ++ fieldName ++ "': <nil>")

/-- `addFieldsStage`: validate, then for each document write every declared
field with its evaluated expression.  Go mutates the document map in place
while iterating the params map, so a later field's expression sees earlier
same-stage writes; the write order is the map-iteration order
`σ.mapOrder params`.  (The in-place mutation itself — aliasing with earlier
stages' slices — is not observable in any claim and is modelled
functionally.) -/
def addFieldsStage (F : GoFloatOps) (σ : Sched) (input : List Doc) (params : Doc) :
    Except String (List Doc) :=
  match validateAddFieldsStage params with
  | .error e => .error ("validation error in $addFields stage: " ++ e)
  | .ok () => goDocs input
where
  goFields (d : Doc) : List (String × Value) → Except String Doc
    | [] => .ok d
    | (field, expr) :: rest =>
      match dbEvaluateExpression F d expr with
      | .error e =>
        .error ("error evaluating expression for field '" ++ field ++ "': " ++ e)
      | .ok value => goFields (d.insert field value) rest
  goDocs : List Doc → Except String (List Doc)
    | [] => .ok []
    | d :: ds => do
      let d' ← goFields d (σ.mapOrder params)
      let ds' ← goDocs ds
      .ok (d' :: ds')

/-! ### `$unwind` (unnamed unwind file) -/

/-- `unwindStage`: missing/empty `path` degrades to the unchanged input;
`$`-sigil stripped; a missing or `nil` field drops the document unless
`preserveNullAndEmptyArrays`; an array produces one shallow copy per
element with the element written back at `path` — *a non-map element is
wrapped as `{"value": element}`* — plus the optional zero-based
`includeArrayIndex` field; an empty array behaves like `nil`; a non-array
value is treated as a single element (written back unwrapped). -/
def unwindStage (input : List Doc) (params : Doc) : List Doc :=
  match Doc.find? params "path" with
  | some (.str pathParam) =>
    if pathParam = "" then input
    else
      let path := if strStartsWith pathParam "$" then strDrop pathParam 1 else pathParam
      let preserve :=
        match Doc.find? params "preserveNullAndEmptyArrays" with
        | some (.bool b) => b
        | _ => false
      let idxField :=
        match Doc.find? params "includeArrayIndex" with
        | some (.str s) => s
        | _ => ""
      (input.map (fun d =>
        match Doc.find? d path with
        | none => if preserve then [d] else []
        | some .null => if preserve then [d] else []
        | some (.arr elems) =>
          if elems.isEmpty then (if preserve then [d] else [])
          else
            elems.enum.map (fun (idx, item) =>
              let itemMap : Value :=
                match item with
                | .doc m => .doc m
                | other => .doc [("value", other)]
              let newDoc := (deepCopyDocument d).insert path itemMap
              if idxField ≠ "" then newDoc.insert idxField (.num (idx : ℚ)) else newDoc)
        | some other => [(deepCopyDocument d).insert path other])).flatten
  | _ => input

/-- `validateUnwindStage`: `path` required, a nonempty string; the two
options, when present, must be a boolean and a string. -/
def validateUnwindStage (params : Doc) : Except String Unit :=
  match Doc.find? params "path" with
  | none => .error "$unwind is missing 'path' field"
  | some (.str s) =>
    if s = "" then .error "$unwind 'path' must be a non-empty string"
    else
      match Doc.find? params "preserveNullAndEmptyArrays" with
      | some (.bool _) | none =>
        (match Doc.find? params "includeArrayIndex" with
         | some (.str _) | none => .ok ()
         | some _ => .error "$unwind 'includeArrayIndex' must be a string if set")
      | some _ => .error "$unwind 'preserveNullAndEmptyArrays' must be a boolean if set"
  | some _ => .error "$unwind 'path' must be a non-empty string"

/-! ### `$group` (query_stage_group.go) -/

/-- `calculateSum`: for a `$field` reference, sum of the convertible field
values; otherwise, if the operand itself converts (`{$sum: 1}` idiom),
`len(docs) * operand`; else `0`. -/
def calculateSum (docs : List Doc) (val : Value) : ℚ :=
  if isFieldRef val then
    docs.foldl (fun sum d =>
      match toFloat64 (getNestedField d (refField val)) with
      | some n => sum + n
      | none => sum) 0
  else
    match toFloat64 val with
    | some f => (docs.length : ℚ) * f
    | none => 0

/-- `calculateMax`: maximum of the convertible values of the referenced
field, `0` when there are none or the operand is not a field reference. -/
def calculateMax (docs : List Doc) (val : Value) : ℚ :=
  if isFieldRef val then
    let m := docs.foldl (fun acc d =>
      match toFloat64 (getNestedField d (refField val)) with
      | some n =>
        match acc with
        | none => some n
        | some m => some (if n > m then n else m)
      | none => acc) none
    m.getD 0
  else 0

/-- `calculateMin`: dually. -/
def calculateMin (docs : List Doc) (val : Value) : ℚ :=
  if isFieldRef val then
    let m := docs.foldl (fun acc d =>
      match toFloat64 (getNestedField d (refField val)) with
      | some n =>
        match acc with
        | none => some n
        | some m => some (if n < m then n else m)
      | none => acc) none
    m.getD 0
  else 0

/-- `calculateAverage`: mean of the convertible values, `0` when none. -/
def calculateAverage (docs : List Doc) (val : Value) : ℚ :=
  if isFieldRef val then
    let (sum, count) := docs.foldl (fun (acc : ℚ × ℕ) d =>
      match toFloat64 (getNestedField d (refField val)) with
      | some n => (acc.1 + n, acc.2 + 1)
      | none => acc) (0, 0)
    if count > 0 then sum / (count : ℚ) else 0
  else 0

/-- `collectValues` (`$push`): every non-`nil` value of the referenced
field, in input order; a non-reference operand yields a `nil` slice
(modelled as the empty array). -/
def collectValues (docs : List Doc) (val : Value) : Value :=
  if isFieldRef val then
    .arr (docs.foldr (fun d acc =>
      match getNestedField d (refField val) with
      | .null => acc
      | v => v :: acc) [])
  else .arr []

/-- `selectFirst` (`$first`). -/
def selectFirst (docs : List Doc) (val : Value) : Value :=
  if isFieldRef val then
    match docs with
    | [] => .null
    | d :: _ => getNestedField d (refField val)
  else .null

/-- `selectLast` (`$last`). -/
def selectLast (docs : List Doc) (val : Value) : Value :=
  if isFieldRef val then
    match docs.getLast? with
    | none => .null
    | some d => getNestedField d (refField val)
  else .null

/-- `addToSet`: deduplicated non-`nil` values collected into a Go map keyed
by the value — inserting an uncomparable (array/map) value panics; the
output order is the map-iteration order over the set. -/
def addToSet (σ : Sched) (docs : List Doc) (val : Value) : Except String Value :=
  if isFieldRef val then do
    let keys ← docs.foldlM (fun (acc : List Value) d =>
      match getNestedField d (refField val) with
      | .null => .ok acc
      | v =>
        if v.comparable then .ok (if acc.contains v then acc else acc ++ [v])
        else .error "runtime error: hash of unhashable type") []
    .ok (.arr (σ.valOrder keys))
  else .ok (.arr [])

/-- `calculateStdDev` (`$stdDevPop`/`$stdDevSamp`): the variance is computed
exactly; the final `math.Sqrt` is the abstracted `F.sqrtF`. -/
def calculateStdDev (F : GoFloatOps) (docs : List Doc) (val : Value) (population : Bool) : ℚ :=
  if isFieldRef val then
    let values := docs.foldr (fun d acc =>
      match toFloat64 (getNestedField d (refField val)) with
      | some n => n :: acc
      | none => acc) []
    let n : ℚ := values.length
    if values.length = 0 then 0
    else
      let mean := values.sum / n
      let variance := (values.map (fun v => (v - mean) * (v - mean))).sum
      let variance :=
        if population then variance / n
        else if values.length > 1 then variance / (n - 1) else variance
      F.sqrtF variance
  else 0

/-- `mergeObjects`: shallow field merge of the referenced object field
across the group, later documents overriding.  (Ranging over each source
object touches distinct keys, so the merged map does not depend on that
iteration order.) -/
def mergeObjects (docs : List Doc) (val : Value) : Value :=
  .doc (if isFieldRef val then
    docs.foldl (fun merged d =>
      match getNestedField d (refField val) with
      | .doc obj => obj.foldl (fun m kv => Doc.insert m kv.1 kv.2) merged
      | _ => merged) []
  else [])

/-- `arrayToObject`: converts the first document's array of `[k, v]` pairs
(placeholder implementation). -/
def arrayToObject (docs : List Doc) (val : Value) : Value :=
  if isFieldRef val then
    match docs with
    | [] => .null
    | d :: _ =>
      let a := match getNestedField d (refField val) with
        | .arr a => a
        | _ => []
      .doc (a.foldl (fun obj pair =>
        match pair with
        | .arr [k, v] =>
          Doc.insert obj (match k with | .str s => s | _ => "") v
        | _ => obj) [])
  else .null

/-- Shared parameter extraction for `$maxN`/`$minN`/`$firstN`/`$lastN`:
`{n, input}`, requiring a `$`-reference and `n ≥ 1`. -/
def extractNParams (val : Value) : Option (ℕ × String) :=
  let p : Doc := match val with | .doc m => m | _ => []
  let nVal := (toFloat64? (Doc.find? p "n")).getD 0
  let inputStr := match Doc.find? p "input" with | some (.str s) => s | _ => ""
  let n : ℤ := ratTrunc nVal
  if ¬ strStartsWith inputStr "$" ∨ n < 1 then none
  else some (n.toNat, strDrop inputStr 1)

/-- `maxN`: all convertible values, sorted descending, first `n`. -/
def maxN (docs : List Doc) (val : Value) : Value :=
  match extractNParams val with
  | none => .null
  | some (n, field) =>
    let allVals := docs.filterMap (fun d => toFloat64 (getNestedField d field))
    let sorted := sortRatsDesc allVals
    .arr ((if sorted.length > n then sorted.take n else sorted).map Value.num)

/-- `minN`: sorted ascending, first `n`. -/
def minN (docs : List Doc) (val : Value) : Value :=
  match extractNParams val with
  | none => .null
  | some (n, field) =>
    let allVals := docs.filterMap (fun d => toFloat64 (getNestedField d field))
    let sorted := sortRatsAsc allVals
    .arr ((if sorted.length > n then sorted.take n else sorted).map Value.num)

/-- `firstN`: the first `n` non-`nil` values in input order. -/
def firstN (docs : List Doc) (val : Value) : Value :=
  match extractNParams val with
  | none => .null
  | some (n, field) =>
    .arr ((docs.filterMap (fun d =>
      match getNestedField d field with
      | .null => none
      | v => some v)).take n)

/-- `lastN`: the last `n` non-`nil` values in input order. -/
def lastN (docs : List Doc) (val : Value) : Value :=
  match extractNParams val with
  | none => .null
  | some (n, field) =>
    let allVals := docs.filterMap (fun d =>
      match getNestedField d field with
      | .null => none
      | v => some v)
    .arr (if allVals.length > n then allVals.drop (allVals.length - n) else allVals)

/-- Append `d` to the partition entry for key `k` (first-encounter order),
mirroring `groups[groupValue] = append(groups[groupValue], doc)`. -/
def appendGroup : List (Value × List Doc) → Value → Doc → List (Value × List Doc)
  | [], k, d => [(k, [d])]
  | (k', ds) :: rest, k, d =>
    if k' = k then (k', ds ++ [d]) :: rest
    else (k', ds) :: appendGroup rest k d

/-- Partition the input by the top-level value of `field` (missing ⇒ `nil`).
Indexing the Go map with an uncomparable (array/map) key panics. -/
def buildGroups (field : String) : List Doc → List (Value × List Doc) →
    Except String (List (Value × List Doc))
  | [], acc => .ok acc
  | d :: ds, acc =>
    let key := (Doc.find? d field).getD .null
    if key.comparable then buildGroups field ds (appendGroup acc key d)
    else .error "runtime error: hash of unhashable type"

/-- Compute one `$group` output document: `{_id: groupValue}` plus one field
per aggregation expression.  The expression fields are distinct map keys, so
their iteration order only affects the binding order (not the document as a
map) and is taken as given; *within* one expression object several operators
overwrite the same result field, so that order is the map-iteration order
`σ.mapOrder`.  Unrecognized operators are logged and leave the field
untouched. -/
def processGroup (F : GoFloatOps) (σ : Sched) (aggExpressions : List (String × Doc))
    (g : Value × List Doc) : Except String Doc :=
  aggExpressions.foldlM (fun gr fe =>
    (σ.mapOrder fe.2).foldlM (fun (gr : Doc) ov =>
      let fieldName := fe.1
      let val := ov.2
      let docs := g.2
      match ov.1 with
      | "$sum" => .ok (gr.insert fieldName (.num (calculateSum docs val)))
      | "$avg" => .ok (gr.insert fieldName (.num (calculateAverage docs val)))
      | "$max" => .ok (gr.insert fieldName (.num (calculateMax docs val)))
      | "$min" => .ok (gr.insert fieldName (.num (calculateMin docs val)))
      | "$push" => .ok (gr.insert fieldName (collectValues docs val))
      | "$first" => .ok (gr.insert fieldName (selectFirst docs val))
      | "$last" => .ok (gr.insert fieldName (selectLast docs val))
      | "$addToSet" => do
        let v ← addToSet σ docs val
        .ok (gr.insert fieldName v)
      | "$stdDevPop" => .ok (gr.insert fieldName (.num (calculateStdDev F docs val true)))
      | "$stdDevSamp" => .ok (gr.insert fieldName (.num (calculateStdDev F docs val false)))
      | "$mergeObjects" => .ok (gr.insert fieldName (mergeObjects docs val))
      | "$accumulator" => .ok (gr.insert fieldName .null)
      | "$count" => .ok (gr.insert fieldName (.num (docs.length : ℚ)))
      | "$arrayToObject" => .ok (gr.insert fieldName (arrayToObject docs val))
      | "$maxN" => .ok (gr.insert fieldName (maxN docs val))
      | "$minN" => .ok (gr.insert fieldName (minN docs val))
      | "$firstN" => .ok (gr.insert fieldName (firstN docs val))
      | "$lastN" => .ok (gr.insert fieldName (lastN docs val))
      | _ => .ok gr) gr)
    [("_id", g.1)]

/-- The `_id` scan of `groupStage`'s params loop: the group key field is
set only for a `$`-prefixed string, and stays `""` otherwise.  (The scan
ranges over the params map, but the extracted data is order-independent.) -/
def groupIDFieldOf (params : Doc) : String :=
  match Doc.find? params "_id" with
  | some (.str s) => if strStartsWith s "$" then strDrop s 1 else ""
  | _ => ""

/-- The aggregation-expression scan of the same loop: every non-`_id` entry
whose value is an object. -/
def aggExpressionsOf (params : Doc) : List (String × Doc) :=
  params.filterMap (fun kv =>
    if kv.1 = "_id" then none
    else match kv.2 with
      | .doc expr => some (kv.1, expr)
      | _ => none)

/-- `groupStage`: documents are partitioned by top-level access
`doc[groupIDField]`, and the partition map is *ranged over* to emit one
result document per group — that emission order is `σ.groupOrder`. -/
def groupStage (F : GoFloatOps) (σ : Sched) (input : List Doc) (params : Doc) :
    Except String (List Doc) := do
  let groups ← buildGroups (groupIDFieldOf params) input []
  (σ.groupOrder groups).mapM (processGroup F σ (aggExpressionsOf params))

/-- `isValidGroupOperator` (query_core.go). -/
def isValidGroupOperator (op : String) : Bool :=
  op = "$sum" ∨ op = "$avg" ∨ op = "$min" ∨ op = "$max" ∨ op = "$push" ∨
  op = "$addToSet" ∨ op = "$first" ∨ op = "$last" ∨ op = "$stdDevPop" ∨
  op = "$stdDevSamp" ∨ op = "$count" ∨ op = "$mergeObjects" ∨
  op = "$percentile" ∨ op = "$median" ∨ op = "$variancePop" ∨ op = "$varianceSamp"

/-- `validateGroupStage`: `_id` required; every other entry must be an
aggregator object whose operators are all allowed. -/
def validateGroupStage (params : Doc) : Except String Unit :=
  match Doc.find? params "_id" with
  | none => .error "$group is missing required field: _id"
  | some _ => go params
where
  go : List (String × Value) → Except String Unit
    | [] => .ok ()
    | (field, aggValue) :: rest =>
      if field = "_id" then go rest
      else
        match aggValue with
        | .doc v =>
          match v.find? (fun ov => ¬ isValidGroupOperator ov.1) with
          | some ov => .error ("$group aggregator " ++ ov.1 ++ " is not supported")
          | none => go rest
        | _ => .error ("$group field " ++ field ++ " must be an aggregator object")

/-! ### `$project` (query_stage_project.go) -/

/-- `resolveField`: dotted-path read that only descends through nested
documents (no array handling); missing or non-document mid-path ⇒ `nil`. -/
def resolveField (d : Doc) (path : String) : Value :=
  go d (splitOnDot path)
where
  go (cur : Doc) : List String → Value
    | [] => .null
    | [p] => (Doc.find? cur p).getD .null
    | p :: ps =>
      match Doc.find? cur p with
      | some (.doc nested) => go nested ps
      | _ => .null

/-- `(Doc.find? l k).getD .null` — the pervasive Go read `m[k]` whose miss
is `nil`, packaged for the recursive evaluators. -/
def findOrNull (l : List (String × Value)) (k : String) : Value :=
  (List.lookup k l).getD .null

theorem sizeOf_findOrNull_lt (l : List (String × Value)) (k : String) :
    sizeOf (findOrNull l k) < 1 + sizeOf l := by
  induction l with
  | nil => simp [findOrNull, List.lookup]
  | cons hd tl ih =>
    obtain ⟨k', v⟩ := hd
    simp only [findOrNull, List.lookup]
    cases hkk : (k == k') with
    | true =>
      simp only [Option.getD_some, List.cons.sizeOf_spec, Prod.mk.sizeOf_spec]
      omega
    | false =>
      simp only [findOrNull] at ih
      simp only [List.cons.sizeOf_spec, Prod.mk.sizeOf_spec]
      omega

mutual

/-- The standalone `evaluateExpression` used by `$project` (and `$bucket`
outputs would, if extended): `$`-strings resolve via `resolveField`, scalars
are literals, arrays evaluate element-wise, and an operator object
dispatches on its first key (Go returns out of the `range` loop on the
first iterated key; single-key objects — the only ones any claim uses — are
order-independent).  Unhandled operators and types are logged and yield
`nil`. -/
def evaluateExpression (F : GoFloatOps) (d : Doc) : Value → Value
  | .str val =>
    if strStartsWith val "$" then resolveField d (strDrop val 1) else .str val
  | .num q => .num q
  | .bool b => .bool b
  | .null => .null
  | .doc val =>
    (match val with
     | [] => .null
     | (op, opVal) :: _ =>
       match op with
       | "$concat" => .str (handleConcat F d opVal)
       | "$substr" => .str (handleSubstring F d opVal)
       | "$dateToString" => .str (handleDateToString F d opVal)
       | "$add" => handleAdd F d opVal
       | "$subtract" => handleSubtract F d opVal
       | "$multiply" => handleMultiply F d opVal
       | "$divide" => handleDivide F d opVal
       | "$mod" => handleMod F d opVal
       | "$and" => .bool (handleAnd F d opVal)
       | "$or" => .bool (handleOr F d opVal)
       | "$not" => .bool (handleNot F d opVal)
       | "$cond" => handleCond F d opVal
       | _ => .null)
  | .arr val => .arr (evalExprList F d val)
termination_by v => sizeOf v
decreasing_by all_goals (simp_wf <;> first | omega | exact sizeOf_findOrNull_lt _ _)

def evalExprList (F : GoFloatOps) (d : Doc) : List Value → List Value
  | [] => []
  | v :: vs => evaluateExpression F d v :: evalExprList F d vs
termination_by l => sizeOf l
decreasing_by all_goals (simp_wf <;> first | omega | exact sizeOf_findOrNull_lt _ _)

/-- `handleConcat`: concatenate those evaluated parts that are strings. -/
def handleConcat (F : GoFloatOps) (d : Doc) (opVal : Value) : String :=
  match opVal with
  | .arr a => concatGo F d a
  | _ => ""
termination_by sizeOf opVal
decreasing_by all_goals (simp_wf <;> first | omega | exact sizeOf_findOrNull_lt _ _)

def concatGo (F : GoFloatOps) (d : Doc) : List Value → String
  | [] => ""
  | item :: rest =>
    (match evaluateExpression F d item with
     | .str s => s
     | _ => "") ++ concatGo F d rest
termination_by l => sizeOf l
decreasing_by all_goals (simp_wf <;> first | omega | exact sizeOf_findOrNull_lt _ _)

/-- `handleSubstring`: `[str, start, length]`, non-strings coerce to `""`,
offsets truncate. -/
def handleSubstring (F : GoFloatOps) (d : Doc) (opVal : Value) : String :=
  match opVal with
  | .arr [a0, a1, a2] =>
    let s := match evaluateExpression F d a0 with
      | .str s => s
      | _ => ""
    let start := (toFloat64 (evaluateExpression F d a1)).getD 0
    let len := (toFloat64 (evaluateExpression F d a2)).getD 0
    extractSubstring (.str s) (ratTrunc start) (ratTrunc len) F
  | _ => ""
termination_by sizeOf opVal
decreasing_by all_goals (simp_wf <;> first | omega | exact sizeOf_findOrNull_lt _ _)

/-- `handleDateToString`: `{date, format}`, the formatting itself is the
abstracted `F.fmtDate`. -/
def handleDateToString (F : GoFloatOps) (d : Doc) (opVal : Value) : String :=
  match opVal with
  | .doc config =>
    let dateVal := evaluateExpression F d (findOrNull config "date")
    let fm := match evaluateExpression F d (findOrNull config "format") with
      | .str s => s
      | _ => ""
    F.fmtDate dateVal fm
  | _ => ""
termination_by sizeOf opVal
decreasing_by all_goals (simp_wf <;> first | omega | exact sizeOf_findOrNull_lt _ _)

/-- `handleAdd`: sum of the operands, non-convertible ones counting as 0. -/
def handleAdd (F : GoFloatOps) (d : Doc) (opVal : Value) : Value :=
  match opVal with
  | .arr a => .num (addGo F d a)
  | _ => .null
termination_by sizeOf opVal
decreasing_by all_goals (simp_wf <;> first | omega | exact sizeOf_findOrNull_lt _ _)

def addGo (F : GoFloatOps) (d : Doc) : List Value → ℚ
  | [] => 0
  | item :: rest =>
    (toFloat64 (evaluateExpression F d item)).getD 0 + addGo F d rest
termination_by l => sizeOf l
decreasing_by all_goals (simp_wf <;> first | omega | exact sizeOf_findOrNull_lt _ _)

def handleSubtract (F : GoFloatOps) (d : Doc) (opVal : Value) : Value :=
  match opVal with
  | .arr (a0 :: a1 :: rest) =>
    .num (subGo F d (a1 :: rest) ((toFloat64 (evaluateExpression F d a0)).getD 0))
  | _ => .null
termination_by sizeOf opVal
decreasing_by all_goals (simp_wf <;> first | omega | exact sizeOf_findOrNull_lt _ _)

def subGo (F : GoFloatOps) (d : Doc) : List Value → ℚ → ℚ
  | [], base => base
  | item :: rest, base =>
    subGo F d rest (base - (toFloat64 (evaluateExpression F d item)).getD 0)
termination_by l _ => sizeOf l
decreasing_by all_goals (simp_wf <;> first | omega | exact sizeOf_findOrNull_lt _ _)

def handleMultiply (F : GoFloatOps) (d : Doc) (opVal : Value) : Value :=
  match opVal with
  | .arr [] => .null
  | .arr (x :: rest) => .num (mulGo F d (x :: rest))
  | _ => .null
termination_by sizeOf opVal
decreasing_by all_goals (simp_wf <;> first | omega | exact sizeOf_findOrNull_lt _ _)

def mulGo (F : GoFloatOps) (d : Doc) : List Value → ℚ
  | [] => 1
  | item :: rest =>
    (toFloat64 (evaluateExpression F d item)).getD 0 * mulGo F d rest
termination_by l => sizeOf l
decreasing_by all_goals (simp_wf <;> first | omega | exact sizeOf_findOrNull_lt _ _)

/-- `handleDivide`: divide, chaining further operands; any zero denominator
yields `nil`. -/
def handleDivide (F : GoFloatOps) (d : Doc) (opVal : Value) : Value :=
  match opVal with
  | .arr (a0 :: a1 :: rest) =>
    let numf := (toFloat64 (evaluateExpression F d a0)).getD 0
    let denf := (toFloat64 (evaluateExpression F d a1)).getD 0
    if denf = 0 then .null
    else divGo F d rest (numf / denf)
  | _ => .null
termination_by sizeOf opVal
decreasing_by all_goals (simp_wf <;> first | omega | exact sizeOf_findOrNull_lt _ _)

def divGo (F : GoFloatOps) (d : Doc) : List Value → ℚ → Value
  | [], acc => .num acc
  | item :: rest, acc =>
    let nf := (toFloat64 (evaluateExpression F d item)).getD 0
    if nf = 0 then .null else divGo F d rest (acc / nf)
termination_by l _ => sizeOf l
decreasing_by all_goals (simp_wf <;> first | omega | exact sizeOf_findOrNull_lt _ _)

def handleMod (F : GoFloatOps) (d : Doc) (opVal : Value) : Value :=
  match opVal with
  | .arr [a0, a1] =>
    let lv := (toFloat64 (evaluateExpression F d a0)).getD 0
    let rv := (toFloat64 (evaluateExpression F d a1)).getD 0
    if rv = 0 then .null else .num (goMod lv rv)
  | _ => .null
termination_by sizeOf opVal
decreasing_by all_goals (simp_wf <;> first | omega | exact sizeOf_findOrNull_lt _ _)

def handleAnd (F : GoFloatOps) (d : Doc) (opVal : Value) : Bool :=
  match opVal with
  | .arr a => andGo F d a
  | _ => false
termination_by sizeOf opVal
decreasing_by all_goals (simp_wf <;> first | omega | exact sizeOf_findOrNull_lt _ _)

def andGo (F : GoFloatOps) (d : Doc) : List Value → Bool
  | [] => true
  | item :: rest =>
    if toBool (evaluateExpression F d item) then andGo F d rest else false
termination_by l => sizeOf l
decreasing_by all_goals (simp_wf <;> first | omega | exact sizeOf_findOrNull_lt _ _)

def handleOr (F : GoFloatOps) (d : Doc) (opVal : Value) : Bool :=
  match opVal with
  | .arr a => orGo F d a
  | _ => false
termination_by sizeOf opVal
decreasing_by all_goals (simp_wf <;> first | omega | exact sizeOf_findOrNull_lt _ _)

def orGo (F : GoFloatOps) (d : Doc) : List Value → Bool
  | [] => false
  | item :: rest =>
    if toBool (evaluateExpression F d item) then true else orGo F d rest
termination_by l => sizeOf l
decreasing_by all_goals (simp_wf <;> first | omega | exact sizeOf_findOrNull_lt _ _)

def handleNot (F : GoFloatOps) (d : Doc) (opVal : Value) : Bool :=
  ¬ toBool (evaluateExpression F d opVal)
termination_by sizeOf opVal + 1
decreasing_by all_goals (simp_wf <;> first | omega | exact sizeOf_findOrNull_lt _ _)

/-- `handleCond`: `{if, then, else}` or `[if, then, else]`. -/
def handleCond (F : GoFloatOps) (d : Doc) (opVal : Value) : Value :=
  match opVal with
  | .doc condVal =>
    let ifv := evaluateExpression F d (findOrNull condVal "if")
    if toBool ifv then evaluateExpression F d (findOrNull condVal "then")
    else evaluateExpression F d (findOrNull condVal "else")
  | .arr [c0, c1, c2] =>
    if toBool (evaluateExpression F d c0) then evaluateExpression F d c1
    else evaluateExpression F d c2
  | _ => .null
termination_by sizeOf opVal
decreasing_by all_goals (simp_wf <;> first | omega | exact sizeOf_findOrNull_lt _ _)

end

/-- `determineProjectionMode`, on the params in the map-iteration order it
was ranged in: track inclusion/exclusion flags over numeric non-`_id`
specs, failing as soon as both are set; any inclusion ⇒ `"include"`, else
`"exclude"`. -/
def determineProjectionMode (ordered : List (String × Value)) : Except String String :=
  go ordered false false
where
  go : List (String × Value) → Bool → Bool → Except String String
    | [], hasInclusion, _ => .ok (if hasInclusion then "include" else "exclude")
    | (field, raw) :: rest, hasInclusion, hasExclusion =>
      match raw with
      | .num spec =>
        if field = "_id" then go rest hasInclusion hasExclusion
        else
          let hasInclusion := if spec = 1 then true else hasInclusion
          let hasExclusion := if spec = 0 then true else hasExclusion
          if hasInclusion ∧ hasExclusion then
            .error "cannot mix inclusion and exclusion in the same projection except for _id"
          else go rest hasInclusion hasExclusion
      | _ => go rest hasInclusion hasExclusion

/-- `projectStage`: a mode error (mixed 1/0) is logged and degrades to the
unchanged input.  Include mode builds up from empty (raw copy for spec `1`),
exclude mode deletes spec-`0` fields from a shallow copy; non-numeric specs
evaluate as expressions against the *original* document; `_id` is copied by
default in include mode when not mentioned. -/
def projectStage (F : GoFloatOps) (σ : Sched) (input : List Doc) (params : Doc) : List Doc :=
  match determineProjectionMode (σ.mapOrder params) with
  | .error _ => input
  | .ok mode =>
    input.map (fun d =>
      let base : Doc := if mode = "include" then [] else deepCopyDocument d
      let projected := (σ.mapOrder params).foldl (fun pd fr =>
        match fr.2 with
        | .num spec =>
          if spec = 1 ∧ mode = "include" then
            match Doc.find? d fr.1 with
            | some v => pd.insert fr.1 v
            | none => pd
          else if spec = 0 ∧ mode = "exclude" then pd.erase fr.1
          else pd
        | rawSpec => pd.insert fr.1 (evaluateExpression F d rawSpec)) base
      if (Doc.find? params "_id").isNone ∧ mode = "include" then
        match Doc.find? d "_id" with
        | some v => projected.insert "_id" v
        | none => projected
      else projected)

/-- `validateProjectStage`: nonempty; each spec must be a numeric `1`/`0`, a
`$`-string, a boolean, or an object.  (Note: it does *not* reject mixed
inclusion/exclusion — that is only detected inside `projectStage`.) -/
def validateProjectStage (params : Doc) : Except String Unit :=
  if params.length = 0 then .error "$project stage must not be empty"
  else go params
where
  go : List (String × Value) → Except String Unit
    | [] => .ok ()
    | (field, val) :: rest =>
      match val with
      | .num v =>
        if v ≠ 1 ∧ v ≠ 0 then .error ("$project field " ++ field ++ " must be 1 or 0")
        else go rest
      | .str s =>
        if ¬ strStartsWith s "$" then
          .error ("$project field " ++ field ++ " has unexpected type string")
        else go rest
      | .bool _ => go rest
      | .doc _ => go rest
      | _ => .error ("$project field " ++ field ++ " has unexpected type")

/-! ### `$match` (query_stage_match.go) -/

/-- `matchesType` (`$type`): the MongoDB type-tag vocabulary against the
dynamic kind (all numbers are one kind after JSON decoding). -/
def matchesType (value : Value) (typeStr : String) : Bool :=
  match value with
  | .null => typeStr = "null"
  | .num _ => typeStr = "number"
  | .str _ => typeStr = "string"
  | .bool _ => typeStr = "bool"
  | .arr _ => typeStr = "array"
  | .doc _ => typeStr = "object"

/-- `handleRegexNot`: `true` iff both sides are strings and the pattern
matches (a compile error also yields `false`, folded into `F.regexF`). -/
def handleRegexNot (F : GoFloatOps) (value pattern : Value) : Bool :=
  match value, pattern with
  | .str strVal, .str patStr => F.regexF patStr strVal
  | _, _ => false

/-- `regexMatch`: `$regex` with the `i` flag taken from a string-valued
`$options` key of the same operator map. -/
def regexMatch (F : GoFloatOps) (value opVal : Value)
    (operators : List (String × Value)) : Bool :=
  match value, opVal with
  | .str str, .str pat =>
    let pat :=
      match List.lookup "$options" operators with
      | some (.str o) => if o.toList.contains 'i' then "(?i)" ++ pat else pat
      | _ => pat
    F.regexF pat str
  | _, _ => false

mutual

/-- `evaluateMatchExpression`: a map is a conjunction of top-level
combinators and field criteria; an array is treated as an implicit
conjunction of conditions; anything else fails. -/
def evaluateMatchExpression (F : GoFloatOps) (d : Doc) : Value → Bool
  | .doc condition => evalMatchFields F d condition
  | .arr clauses => evalMatchAll F d clauses
  | _ => false
termination_by v => (sizeOf v, 0)

/-- every clause matches (`$and`, and the bare-array form). -/
def evalMatchAll (F : GoFloatOps) (d : Doc) : List Value → Bool
  | [] => true
  | c :: rest =>
    if evaluateMatchExpression F d c then evalMatchAll F d rest else false
termination_by l => (sizeOf l, 0)

/-- some clause matches (`$or`; negated for `$nor`). -/
def evalMatchAny (F : GoFloatOps) (d : Doc) : List Value → Bool
  | [] => false
  | c :: rest =>
    if evaluateMatchExpression F d c then true else evalMatchAny F d rest
termination_by l => (sizeOf l, 0)

/-- The loop over a condition map's entries.  A combinator key *returns*
its result immediately (later entries are ignored — the entry order is the
Go map-iteration order; no theorem mixes combinators with further keys); a
field criterion either fails the document or falls through to the next
entry.  Field values resolve through `getNestedFieldExists`; a criterion
that is not an operator map is a structural-equality test. -/
def evalMatchFields (F : GoFloatOps) (d : Doc) : List (String × Value) → Bool
  | [] => true
  | (key, val) :: rest =>
    if key = "$and" then
      (match val with
       | .arr clauses => evalMatchAll F d clauses
       | _ => false)
    else if key = "$or" then
      (match val with
       | .arr clauses => evalMatchAny F d clauses
       | _ => false)
    else if key = "$nor" then
      (match val with
       | .arr clauses => ¬ evalMatchAny F d clauses
       | _ => false)
    else
      let docVal := getNestedFieldExists d key
      match val with
      | .doc opMap =>
        if evaluateOperators F (docVal.getD .null) docVal.isSome opMap opMap then
          evalMatchFields F d rest
        else false
      | _ =>
        if (docVal.getD .null) = val then evalMatchFields F d rest else false
termination_by l => (sizeOf l, 0)

/-- `$elemMatch`'s scan: some array element that is a document matches the
criteria. -/
def anyElemMatches (F : GoFloatOps) (crit : Value) : List Value → Bool
  | [] => false
  | elem :: rest =>
    match elem with
    | .doc elemMap =>
      if evaluateMatchExpression F elemMap crit then true
      else anyElemMatches F crit rest
    | _ => anyElemMatches F crit rest
termination_by l => (sizeOf crit, sizeOf l)

/-- `evaluateOperators`: conjunction over the operator entries;
`value`/`valueExists` carry the resolved field value (missing ⇒ `nil`);
`allOps` is the complete operator map, consulted by `$regex` for
`$options`.  An unrecognized operator (and the `$expr` stub) fails the
match. -/
def evaluateOperators (F : GoFloatOps) (value : Value) (valueExists : Bool) :
    List (String × Value) → List (String × Value) → Bool
  | [], _ => true
  | (opKey, opVal) :: rest, allOps =>
    if opKey = "$not" then
      match opVal with
      | .doc nestedMap =>
        if evaluateOperators F value valueExists nestedMap nestedMap then false
        else evaluateOperators F value valueExists rest allOps
      | _ =>
        if handleRegexNot F value opVal then
          evaluateOperators F value valueExists rest allOps
        else false
    else if opKey = "$elemMatch" then
      match value, opVal with
      | .arr arr, .doc critMap =>
        if anyElemMatches F (.doc critMap) arr then
          evaluateOperators F value valueExists rest allOps
        else false
      | _, _ => false
    else if opKey = "$all" then
      match value, opVal with
      | .arr arr, .arr requiredEls =>
        if requiredEls.all (fun re => arr.contains re) then
          evaluateOperators F value valueExists rest allOps
        else false
      | _, _ => false
    else if opKey = "$size" then
      match value, opVal with
      | .arr arr, .num size =>
        if (arr.length : ℚ) = size then
          evaluateOperators F value valueExists rest allOps
        else false
      | _, _ => false
    else if opKey = "$regex" then
      if regexMatch F value opVal allOps then
        evaluateOperators F value valueExists rest allOps
      else false
    else if opKey = "$options" then
      evaluateOperators F value valueExists rest allOps
    else if opKey = "$eq" then
      if value = opVal then evaluateOperators F value valueExists rest allOps else false
    else if opKey = "$ne" then
      if value = opVal then false else evaluateOperators F value valueExists rest allOps
    else if opKey = "$gt" then
      match toFloat64 value, toFloat64 opVal with
      | some a, some b =>
        if a > b then evaluateOperators F value valueExists rest allOps else false
      | _, _ => false
    else if opKey = "$gte" then
      match toFloat64 value, toFloat64 opVal with
      | some a, some b =>
        if a ≥ b then evaluateOperators F value valueExists rest allOps else false
      | _, _ => false
    else if opKey = "$lt" then
      match toFloat64 value, toFloat64 opVal with
      | some a, some b =>
        if a < b then evaluateOperators F value valueExists rest allOps else false
      | _, _ => false
    else if opKey = "$lte" then
      match toFloat64 value, toFloat64 opVal with
      | some a, some b =>
        if a ≤ b then evaluateOperators F value valueExists rest allOps else false
      | _, _ => false
    else if opKey = "$in" then
      match opVal with
      | .arr arr =>
        if arr.contains value then evaluateOperators F value valueExists rest allOps
        else false
      | _ => false
    else if opKey = "$nin" then
      match opVal with
      | .arr arr =>
        if arr.contains value then false
        else evaluateOperators F value valueExists rest allOps
      | _ => false
    else if opKey = "$exists" then
      match opVal with
      | .bool expectExists =>
        if expectExists = valueExists then
          evaluateOperators F value valueExists rest allOps
        else false
      | _ => false
    else if opKey = "$type" then
      match opVal with
      | .str typeStr =>
        if matchesType value typeStr then
          evaluateOperators F value valueExists rest allOps
        else false
      | _ => false
    else if opKey = "$mod" then
      match opVal with
      | .arr [a0, a1] =>
        (match toFloat64 a0, toFloat64 a1, toFloat64 value with
         | some divisor, some remainder, some valNum =>
           -- `math.Mod(x, 0)` is NaN, which is `!=` every remainder.
           if divisor ≠ 0 ∧ goMod valNum divisor = remainder then
             evaluateOperators F value valueExists rest allOps
           else false
         | _, _, _ => false)
      | _ => false
    else false
termination_by ops _ => (sizeOf ops, 0)

end

/-- `matchStage`: keep the documents satisfying the condition map. -/
def matchStage (F : GoFloatOps) (input : List Doc) (params : Doc) : List Doc :=
  input.filter (fun d => evaluateMatchExpression F d (.doc params))

/-- `isValidMatchOperator` (query_core.go): the allow-list consulted by the
`$match` validator. -/
def isValidMatchOperator (op : String) : Bool :=
  [ "$eq", "$gt", "$gte", "$in", "$lt", "$lte", "$ne", "$nin",
    "$and", "$or", "$not", "$nor",
    "$options",
    "$exists", "$type",
    "$expr", "$jsonSchema", "$mod", "$regex", "$text", "$where",
    "$all", "$elemMatch", "$size",
    "$geoWithin", "$geoIntersects", "$near", "$nearSphere",
    "$bitsAllClear", "$bitsAllSet", "$bitsAnyClear", "$bitsAnySet",
    "$comment", "$sampleRate", "$rand", "$meta", "$literal", "$var",
    "$concat", "$substr", "$toLower", "$toUpper", "$trim", "$ltrim", "$rtrim",
    "$split", "$strLenBytes", "$strLenCP", "$strcasecmp", "$substrBytes",
    "$substrCP", "$indexOfBytes", "$indexOfCP", "$toString", "$dateToString",
    "$dateFromString", "$add", "$subtract", "$multiply", "$divide", "$pow",
    "$sqrt", "$abs", "$ceil", "$floor", "$trunc", "$round", "$sin", "$cos",
    "$tan", "$asin", "$acos", "$atan", "$atan2", "$ln", "$log", "$log10",
    "$exp", "$min", "$max", "$avg", "$sum", "$stdDevPop", "$stdDevSamp",
    "$first", "$last", "$push", "$addToSet", "$mergeObjects", "$arrayElemAt",
    "$filter", "$map", "$reduce", "$zip", "$range", "$concatArrays",
    "$arrayToObject", "$objectToArray", "$setUnion", "$setIntersection",
    "$setDifference", "$setEquals", "$setIsSubset", "$anyElementTrue",
    "$allElementsTrue", "$document", "$function", "$let", "$switch", "$cond",
    "$ifNull", "$isNumber", "$isString", "$isDate", "$isArray", "$isObject",
    "$isBool" ].contains op

/-- `validateMatchStage`: nonempty; `$and`/`$or`/`$nor` take a nonempty
array of objects; a field criterion is an operator map whose operators are
all allowed, or a scalar; `nil` and arrays are unexpected types. -/
def validateMatchStage (params : Doc) : Except String Unit :=
  if params.length = 0 then .error "$match stage must not be empty"
  else go params
where
  go : List (String × Value) → Except String Unit
    | [] => .ok ()
    | (field, val) :: rest =>
      if field = "$or" ∨ field = "$and" ∨ field = "$nor" then
        match val with
        | .arr a =>
          if a.isEmpty then
            .error ("$match operator " ++ field ++ " array must not be empty")
          else if a.all (fun c => match c with | .doc _ => true | _ => false) then
            go rest
          else .error ("$match operator " ++ field ++ " element is not an object")
        | _ => .error ("$match operator " ++ field ++ " expects an array")
      else
        match val with
        | .doc valTyped =>
          (match valTyped.find? (fun ov => ¬ isValidMatchOperator ov.1) with
           | some ov =>
             .error ("$match has invalid operator " ++ ov.1 ++ " for field " ++ field)
           | none => go rest)
        | .str _ | .num _ | .bool _ => go rest
        | _ => .error ("$match field " ++ field ++ " has unexpected type")

/-! ### `$count` (query_stage_count.go) -/

/-- `countStage`: the field name comes from a bare string, or from the
first of the `field`/`$count`/`path` keys of a map (each must then be a
nonblank string); output is the single document `{field: len(input)}` (the
count is a Go `int`, modelled like every number). -/
def countStage (input : List Doc) (params : Value) : Except String (List Doc) := do
  let fieldName ←
    match params with
    | .str v =>
      if trimSpace v = "" then
        Except.error "$count stage requires a non-empty string as the field name"
      else Except.ok v
    | .doc v =>
      (match Doc.find? v "field" with
       | some fieldVal => requireNonBlankStr fieldVal
       | none =>
         match Doc.find? v "$count" with
         | some fieldVal => requireNonBlankStr fieldVal
         | none =>
           match Doc.find? v "path" with
           | some fieldVal => requireNonBlankStr fieldVal
           | none => Except.error "$count stage requires a 'field' key in the map")
    | _ => Except.error "$count stage requires a string or a map with a 'field' key"
  .ok [[(fieldName, .num (input.length : ℚ))]]
where
  requireNonBlankStr (v : Value) : Except String String :=
    match v with
    | .str s =>
      if trimSpace s ≠ "" then .ok s
      else .error "$count 'field' parameter must be a non-empty string"
    | _ => .error "$count 'field' parameter must be a non-empty string"

/-- Whitespace check used by `validateCountStage`
(`strings.ContainsAny(v, " \t\n")`). -/
def containsWhitespace (s : String) : Bool :=
  s.toList.any (fun c => c = ' ' ∨ c = '\t' ∨ c = '\n')

/-- `validateCountStage`: a bare string or one of `field`/`$count`/`path`;
the name must be nonblank, not `$`-led, and without whitespace. -/
def validateCountStage (params : Value) : Except String Unit :=
  match params with
  | .str v =>
    if trimSpace v = "" then .error "$count stage requires a non-empty string as the field name"
    else if strStartsWith v "$" then .error "$count field name must not start with '$'"
    else if containsWhitespace v then
      .error "$count field name must not contain whitespace characters"
    else .ok ()
  | .doc v =>
    let fieldVal? :=
      match Doc.find? v "field" with
      | some fv => some fv
      | none =>
        match Doc.find? v "$count" with
        | some fv => some fv
        | none => Doc.find? v "path"
    (match fieldVal? with
     | none => .error "$count stage requires a 'field' parameter in the map"
     | some (.str fieldName) =>
       if trimSpace fieldName = "" then
         .error "$count 'field' parameter must be a non-empty string"
       else if strStartsWith fieldName "$" then
         .error "$count 'field' parameter must not start with '$'"
       else if containsWhitespace fieldName then
         .error "$count 'field' parameter must not contain whitespace characters"
       else .ok ()
     | some _ => .error "$count 'field' parameter must be a non-empty string")
  | _ => .error "$count stage requires a string or a map with a 'field' key"

/-! ### `$unset` (query_stage_unset.go) -/

/-- `validateUnsetStage`: extract the field names to remove from a string,
an array of strings, or a map (its `path` value — string or string array —
or else its keys).  (The Go `[]string` cases cannot arise after JSON
decoding.  Ranging over the map's keys produces them in map-iteration
order, which only affects the order of deletions, not the result.) -/
def validateUnsetStage (params : Value) : Except String (List String) :=
  match params with
  | .str v =>
    if v = "" then .error "$unset stage contains an empty field name"
    else .ok [v]
  | .arr l => fromValueList l "$unset stage array contains a non-string field"
  | .doc v =>
    (match Doc.find? v "path" with
     | some (.str p) =>
       if p = "" then .error "$unset stage contains an empty field name in path"
       else .ok [p]
     | some (.arr l) => fromValueList l "$unset stage path array contains a non-string field"
     | some _ => .error "$unset stage 'path' must be a string or array of strings"
     | none =>
       if v.any (fun kv => kv.1 = "") then
         .error "$unset stage contains an empty field name"
       else .ok (v.map (·.1)))
  | _ => .error "invalid $unset stage parameters: must be a string, array of strings, or map"
where
  fromValueList (l : List Value) (msg : String) : Except String (List String) :=
    l.foldrM (fun field acc =>
      match field with
      | .str s =>
        if s = "" then .error "$unset stage contains an empty field name"
        else .ok (s :: acc)
      | _ => .error msg) []

/-- `unsetStage`: validate, then delete each named field from a shallow
copy of every document. -/
def unsetStage (input : List Doc) (params : Value) : Except String (List Doc) := do
  let fields ← validateUnsetStage params
  .ok (input.map (fun d => fields.foldl Doc.erase d))

/-! ### `$sortByCount` (unnamed sortByCount file) -/

/-- Build the `countMap` in first-encounter order (`countMap[value]++`
panics on an uncomparable key). -/
def countBuild (expr : String) : List Doc → List (Value × ℕ) →
    Except String (List (Value × ℕ))
  | [], acc => .ok acc
  | d :: ds, acc =>
    let value := (Doc.find? d expr).getD .null
    if value.comparable then countBuild expr ds (bumpCount acc value)
    else .error "runtime error: hash of unhashable type"
where
  bumpCount : List (Value × ℕ) → Value → List (Value × ℕ)
    | [], v => [(v, 1)]
    | (v', c) :: rest, v =>
      if v' = v then (v', c + 1) :: rest else (v', c) :: bumpCount rest v

/-- The descending-by-`count` comparator of `sortByCountStage`.  (The
fallback integer comparison is dead code in Go — `toFloat64` accepts the
stored `int` — and is modelled by `false`.) -/
def sortByCountLess (a b : Doc) : Bool :=
  match toFloat64? (Doc.find? a "count"), toFloat64? (Doc.find? b "count") with
  | some x, some y => decide (x > y)
  | _, _ => false

/-- `sortByCountStage`: group by the top-level value of `path` (missing ⇒
`nil`), count, emit `{_id, count}` per group in map-iteration order, then
`sort.Slice` descending by count.  (`sort.Slice` is unstable; the relative
order of equal counts is implementation-defined in Go and inherits the
iteration order in this model.) -/
def sortByCountStage (σ : Sched) (input : List Doc) (params : Doc) :
    Except String (List Doc) :=
  match Doc.find? params "path" with
  | some (.str s) =>
    if s = "" then .error "$sortByCount requires a non-empty 'path' parameter"
    else do
      let expr := if strStartsWith s "$" then strDrop s 1 else s
      let counts ← countBuild expr input []
      let result := (σ.countOrder counts).map
        (fun kc => [("_id", kc.1), ("count", Value.num (kc.2 : ℚ))])
      .ok (insSort sortByCountLess result)
  | _ => .error "$sortByCount requires a non-empty 'path' parameter"

/-- `validateSortByCountStage`: `path` present, a nonblank string. -/
def validateSortByCountStage (params : Doc) : Except String Unit :=
  match Doc.find? params "path" with
  | none => .error "$sortByCount stage requires a 'path' parameter"
  | some (.str p) =>
    if trimSpace p = "" then .error "$sortByCount 'path' parameter must be a non-empty string"
    else .ok ()
  | some _ => .error "$sortByCount 'path' parameter must be a non-empty string"

/-! ### `$bucket` (query_stage_bucket.go) -/

/-- `validateBucketStage`. -/
def validateBucketStage (params : Doc) : Except String Unit := do
  if (Doc.find? params "groupBy").isNone then
    throw "$bucket stage requires a 'groupBy' field"
  if (Doc.find? params "boundaries").isNone then
    throw "$bucket stage requires 'boundaries' field"
  match Doc.find? params "groupBy" with
  | some (.str s) =>
    if s = "" then throw "$bucket stage 'groupBy' must be a non-empty string"
  | _ => throw "$bucket stage 'groupBy' must be a non-empty string"
  match Doc.find? params "boundaries" with
  | some (.arr bs) =>
    if bs.length < 2 then
      throw "$bucket stage 'boundaries' must be an array with at least two elements"
    else if bs.all (fun b => match b with | .num _ => true | _ => false) then pure ()
    else throw "$bucket stage 'boundaries' must contain numeric values"
  | _ => throw "$bucket stage 'boundaries' must be an array with at least two elements"
  match Doc.find? params "default" with
  | some (.str _) | none => pure ()
  | some _ => throw "$bucket stage 'default' must be a string"
  match Doc.find? params "output" with
  | some (.doc _) | none => pure ()
  | some _ => throw "$bucket stage 'output' must be an object"

/-- The restricted `$bucket` output spec: only `{$sum: 1}` (document count)
is supported; several operators on one output key overwrite in
map-iteration order. -/
def bucketOutput (σ : Sched) (count : ℕ) (output : Doc) (base : Doc) :
    Except String Doc :=
  output.foldlM (fun result ke =>
    match ke.2 with
    | .doc e =>
      (σ.mapOrder e).foldlM (fun (result : Doc) ov =>
        if ov.1 = "$sum" then
          match toFloat64 ov.2 with
          | none => .error "$sum field must be numeric or string representing a number"
          | some sumValue =>
            if sumValue = 1 then .ok (result.insert ke.1 (.num (count : ℚ)))
            else .error "$sum currently supports only counting documents (field value must be 1)"
        else .error ("unsupported aggregation operator in $bucket output: " ++ ov.1)) result
    | _ => .error "$bucket stage 'output' must be an object") base

/-- The bucket index a document falls into: the first interval
`[b[i], b[i+1])` containing its numeric `groupBy` value; documents with a
missing or non-numeric value, or outside all intervals, go to the default
bucket (index `numIntervals`) when one is declared, and are dropped
otherwise.  (Only a direct `float64` counts as numeric here — the Go code
type-switches rather than calling `toFloat64`.) -/
def bucketIndex (groupBy : String) (boundaries : List ℚ) (hasDefault : Bool)
    (d : Doc) : Option ℕ :=
  let numIntervals := boundaries.length - 1
  let dflt := if hasDefault then some numIntervals else none
  match Doc.find? d groupBy with
  | some (.num q) =>
    (match (List.range numIntervals).find? (fun i =>
        decide (boundaries.getD i 0 ≤ q) ∧ decide (q < boundaries.getD (i + 1) 0)) with
     | some i => some i
     | none => dflt)
  | some _ => dflt
  | none => dflt

/-- `bucketStage`: numeric sorted boundaries delimit half-open intervals
labelled `"[lo, hi)"`; an optional string `default` adds an `"Other"`
bucket; the output spec is restricted (see `bucketOutput`). -/
def bucketStage (F : GoFloatOps) (σ : Sched) (input : List Doc) (params : Doc) :
    Except String (List Doc) := do
  let groupBy ←
    match Doc.find? params "groupBy" with
    | some (.str s) => Except.ok s
    | _ => Except.error "$bucket stage requires a string 'groupBy' field"
  let boundariesRaw ←
    match Doc.find? params "boundaries" with
    | some (.arr l) => Except.ok l
    | _ => Except.error "$bucket stage requires an array of 'boundaries'"
  let boundaries ← boundariesRaw.mapM (fun b =>
    match b with
    | .num q => Except.ok q
    | _ => Except.error "$bucket stage 'boundaries' must be numeric")
  let boundaries := sortRatsAsc boundaries
  let hasDefault :=
    match Doc.find? params "default" with
    | some (.str _) => true
    | _ => false
  let output? :=
    match Doc.find? params "output" with
    | some (.doc m) => some m
    | _ => none
  let numIntervals := boundaries.length - 1
  let labels := (boundaries.zip boundaries.tail).map (fun p =>
    "[" ++ F.fmtF p.1 ++ ", " ++ F.fmtF p.2 ++ ")")
  let allLabels := if hasDefault then labels ++ ["Other"] else labels
  (List.range allLabels.length).mapM (fun i => do
    let bucketDocs := input.filter (fun d =>
      bucketIndex groupBy boundaries hasDefault d = some i)
    let base : Doc := [("_id", .str (allLabels.getD i ""))]
    match output? with
    | some output => bucketOutput σ bucketDocs.length output base
    | none => pure base)

/-! ### `$bucketAuto` (unnamed bucketAuto file) -/

/-- `cleanGroupByField`: strip a leading `$`. -/
def cleanGroupByField (field : String) : String :=
  if strStartsWith field "$" then strDrop field 1 else field

/-- `validateBucketAutoStage`: nonempty `groupBy` (also after cleaning),
positive integer `buckets`, and an optional output spec over
`$sum`/`$avg`/`$max`/`$min` (the `$sum` operand may be any string, the
others need a string field name). -/
def validateBucketAutoStage (params : Doc) : Except String Unit := do
  match Doc.find? params "groupBy" with
  | some (.str s) =>
    if s = "" then throw "$bucketAuto stage requires a non-empty string 'groupBy' field"
    else if cleanGroupByField s = "" then
      throw "$bucketAuto stage 'groupBy' cannot be empty after cleaning"
  | _ => throw "$bucketAuto stage requires a non-empty string 'groupBy' field"
  match Doc.find? params "buckets" with
  | none => throw "$bucketAuto stage requires a 'buckets' field"
  | some b =>
    match toFloat64 b with
    | none => throw "$bucketAuto stage 'buckets' must be a number"
    | some numBuckets =>
      if ratTrunc numBuckets ≤ 0 then
        throw "$bucketAuto stage 'buckets' must be greater than 0"
  match Doc.find? params "output" with
  | none => pure ()
  | some (.doc outputMap) =>
    outputMap.forM (fun ke =>
      match ke.2 with
      | .doc exprMap =>
        exprMap.forM (fun ov =>
          if ov.1 = "$sum" then
            match ov.2 with
            | .str _ => pure ()
            | _ => throw "$sum operator requires a string field name or '1'"
          else if ov.1 = "$avg" ∨ ov.1 = "$max" ∨ ov.1 = "$min" then
            match ov.2 with
            | .str _ => pure ()
            | _ => throw (ov.1 ++ " operator requires a string field name")
          else throw ("unsupported aggregation operator in $bucketAuto output: " ++ ov.1))
      | _ => throw "$bucketAuto stage 'output' expressions must be objects")
  | some _ => throw "$bucketAuto stage 'output' must be an object"

/-- The quantile boundary list of `$bucketAuto`: start at the minimum,
take the sorted value at rank `round(i*(len-1)/buckets)` (clamped) for each
interior cut, close with `max+1`, and drop consecutive duplicates.  The
float multiply/divide/round chain is modelled exactly over ℚ. -/
def bucketAutoBoundaries (values : List ℚ) (numBucketsInt : ℕ) : List ℚ :=
  let raw :=
    values.head?.getD 0 ::
    ((List.range' 1 (numBucketsInt - 1)).map (fun i =>
      let pos : ℤ := ratRound ((i : ℚ) * ((values.length - 1 : ℤ) : ℚ) / (numBucketsInt : ℚ))
      let pos := if pos < 0 then 0 else if pos ≥ (values.length : ℤ) then (values.length : ℤ) - 1 else pos
      values.getD pos.toNat 0)) ++ [values.getLast?.getD 0 + 1]
  dedupConsec raw
where
  dedupConsec : List ℚ → List ℚ
    | [] => []
    | b :: rest => b :: go b rest
  go (prev : ℚ) : List ℚ → List ℚ
    | [] => []
    | b :: rest => if b = prev then go prev rest else b :: go b rest

/-- The interval a document falls into under `$bucketAuto`'s rules: scan
`[b[i], b[i+1])`, with the *last* interval closed on the right; no default
bucket, misses are dropped.  Here the numeric value goes through
`toFloat64` (numeric strings convert), unlike `$bucket`. -/
def bucketAutoIndex (groupBy : String) (boundaries : List ℚ) (d : Doc) : Option ℕ :=
  let numIntervals := boundaries.length - 1
  match Doc.find? d groupBy with
  | none => none
  | some v =>
    match toFloat64 v with
    | none => none
    | some q =>
      (List.range numIntervals).find? (fun i =>
        if i = numIntervals - 1 then
          decide (boundaries.getD i 0 ≤ q) ∧ decide (q ≤ boundaries.getD (i + 1) 0)
        else
          decide (boundaries.getD i 0 ≤ q) ∧ decide (q < boundaries.getD (i + 1) 0))

/-- One `$bucketAuto` output aggregation (`$sum` of `"1"` counts; `$sum`
of a field name sums; `$avg`/`$max`/`$min` over present, convertible
values, `nil` over an empty bucket). -/
def bucketAutoAgg (bucketDocs : List Doc) (op : String) (field : Value) :
    Except String Value :=
  if op = "$sum" then
    match field with
    | .str "1" => .ok (.num (bucketDocs.length : ℚ))
    | .str fieldName =>
      .ok (.num (bucketDocs.foldl (fun sum d =>
        match Doc.find? d fieldName with
        | some v =>
          (match toFloat64 v with
           | some n => sum + n
           | none => sum)
        | none => sum) 0))
    | _ => .error "$sum operator requires a string field name or '1'"
  else if op = "$avg" then
    match field with
    | .str fieldName =>
      let (sum, count) := bucketDocs.foldl (fun (acc : ℚ × ℕ) d =>
        match Doc.find? d fieldName with
        | some v =>
          (match toFloat64 v with
           | some n => (acc.1 + n, acc.2 + 1)
           | none => acc)
        | none => acc) (0, 0)
      .ok (if count > 0 then .num (sum / (count : ℚ)) else .null)
    | _ => .error "$avg operator requires a string field name"
  else if op = "$max" then
    match field with
    | .str fieldName =>
      let m := bucketDocs.foldl (fun acc d =>
        match Doc.find? d fieldName with
        | some v =>
          (match toFloat64 v with
           | some n =>
             (match acc with
              | none => some n
              | some m => some (if n > m then n else m))
           | none => acc)
        | none => acc) none
      .ok (match m with | some m => .num m | none => .null)
    | _ => .error "$max operator requires a string field name"
  else if op = "$min" then
    match field with
    | .str fieldName =>
      let m := bucketDocs.foldl (fun acc d =>
        match Doc.find? d fieldName with
        | some v =>
          (match toFloat64 v with
           | some n =>
             (match acc with
              | none => some n
              | some m => some (if n < m then n else m))
           | none => acc)
        | none => acc) none
      .ok (match m with | some m => .num m | none => .null)
    | _ => .error "$min operator requires a string field name"
  else .error ("unsupported aggregation operator in $bucketAuto output: " ++ op)

/-- `bucketAutoStage`: validate, collect the convertible `groupBy` values
(erroring when there are none), cut quantile boundaries, assign documents
(last interval right-closed), and emit one `{_id: "[lo, hi)"}` document per
interval with the optional output aggregations. -/
def bucketAutoStage (F : GoFloatOps) (σ : Sched) (input : List Doc) (params : Doc) :
    Except String (List Doc) := do
  validateBucketAutoStage params
  let groupBy := cleanGroupByField (match Doc.find? params "groupBy" with
    | some (.str s) => s
    | _ => "")
  let numBucketsInt := (ratTrunc ((toFloat64? (Doc.find? params "buckets")).getD 0)).toNat
  let output? :=
    match Doc.find? params "output" with
    | some (.doc m) => some m
    | _ => none
  let values := sortRatsAsc (input.filterMap (fun d =>
    match Doc.find? d groupBy with
    | some v => toFloat64 v
    | none => none))
  if values.isEmpty then
    throw "$bucketAuto stage found no valid 'groupBy' values"
  else do
    let boundaries := bucketAutoBoundaries values numBucketsInt
    let labels := (boundaries.zip boundaries.tail).map (fun p =>
      "[" ++ F.fmtF p.1 ++ ", " ++ F.fmtF p.2 ++ ")")
    (List.range labels.length).mapM (fun i => do
      let bucketDocs := input.filter (fun d =>
        bucketAutoIndex groupBy boundaries d = some i)
      let base : Doc := [("_id", .str (labels.getD i ""))]
      match output? with
      | some output =>
        output.foldlM (fun (result : Doc) ke =>
          match ke.2 with
          | .doc e =>
            (σ.mapOrder e).foldlM (fun (result : Doc) ov => do
              let v ← bucketAutoAgg bucketDocs ov.1 ov.2
              pure (result.insert ke.1 v)) result
          | _ => .error "$bucketAuto stage 'output' must be an object") base
      | none => pure base)

/-! ### `$facet` and its sub-pipeline runner (second half of
query_stage_group.go's file) -/

mutual

/-- `facetStage`: one output document, one key per facet, each facet's
sub-pipeline applied independently to the *original* input.  A facet whose
value is not an array is skipped with a log.  (Go ranges over the facet
map; the facets write distinct keys of the one result document, so the
document is order-independent and the list order is used.) -/
def facetStage (F : GoFloatOps) (σ : Sched) (db : DB) (input : List Doc)
    (params : Doc) : Except String (List Doc) := do
  let facets ← facetGo F σ db input params
  .ok [facets]
termination_by (sizeOf params, 1)

def facetGo (F : GoFloatOps) (σ : Sched) (db : DB) (input : List Doc) :
    List (String × Value) → Except String Doc
  | [] => .ok []
  | (facetName, rawPipeline) :: rest =>
    match rawPipeline with
    | .arr pipeline => do
      let facetResult ← applyPipeline F σ db input pipeline
      let restDoc ← facetGo F σ db input rest
      .ok ((facetName, .arr (facetResult.map Value.doc)) :: restDoc)
    | _ => facetGo F σ db input rest
termination_by l => (sizeOf l, 0)

/-- `applyPipeline`: the `$facet` sub-pipeline runner — note it has no
empty-sequence short-circuit, no validation, and supports only nine stage
tags; a non-object stage is logged (`Invalid stage format`) and skipped. -/
def applyPipeline (F : GoFloatOps) (σ : Sched) (db : DB) (data : List Doc) :
    List Value → Except String (List Doc)
  | [] => .ok data
  | stage :: rest =>
    match stage with
    | .doc s => do
      let data' ← applyStageEntries F σ db data s
      applyPipeline F σ db data' rest
    | _ => applyPipeline F σ db data rest
termination_by l => (sizeOf l, 1)

/-- The loop over one sub-pipeline stage object's entries.  Every branch
type-asserts `value.(map[string]interface{})` with no `ok`-check — a
non-object stage value is a runtime panic, modelled as `.error`; the
logging `default` branch performs the same assertion. -/
def applyStageEntries (F : GoFloatOps) (σ : Sched) (db : DB) (data : List Doc) :
    List (String × Value) → Except String (List Doc)
  | [] => .ok data
  | (key, value) :: restKV =>
    match value with
    | .doc m =>
      if key = "$match" then applyStageEntries F σ db (matchStage F data m) restKV
      else if key = "$project" then applyStageEntries F σ db (projectStage F σ data m) restKV
      else if key = "$group" then do
        let data' ← groupStage F σ data m
        applyStageEntries F σ db data' restKV
      else if key = "$facet" then do
        let data' ← facetStage F σ db data m
        applyStageEntries F σ db data' restKV
      else if key = "$sort" then applyStageEntries F σ db (sortStage F σ data m) restKV
      else if key = "$limit" then applyStageEntries F σ db (limitStage data m) restKV
      else if key = "$skip" then applyStageEntries F σ db (skipStage data m) restKV
      else if key = "$lookup" then do
        let data' ← lookupStage db data m
        applyStageEntries F σ db data' restKV
      else if key = "$unwind" then applyStageEntries F σ db (unwindStage data m) restKV
      else applyStageEntries F σ db data restKV
    | _ =>
      .error "interface conversion: interface {} is not map[string]interface {}"
termination_by l => (sizeOf l, 0)

end

/-! ### Pipeline parsing, validation and the runner (query_core.go) -/

/-- `asMap` (query_core.go): safe cast to a document, `nil` map otherwise. -/
def asMap : Value → Doc
  | .doc m => m
  | _ => []

theorem sizeOf_asMap_le (v : Value) : sizeOf (asMap v) ≤ sizeOf v := by
  cases v <;> simp [asMap] <;> omega

mutual

/-- `validateStage`: dispatch to the per-stage validator; unrecognized
stage names are a validation error. -/
def validateStage (stageName : String) (params : Doc) : Except String Unit :=
  if stageName = "$match" then validateMatchStage params
  else if stageName = "$project" then validateProjectStage params
  else if stageName = "$group" then validateGroupStage params
  else if stageName = "$facet" then validateFacetStage params
  else if stageName = "$sample" then validateSampleStage params
  else if stageName = "$sort" then validateSortStage params
  else if stageName = "$count" then validateCountStage (.doc params)
  else if stageName = "$limit" then validateLimitStage params
  else if stageName = "$sortByCount" then validateSortByCountStage params
  else if stageName = "$skip" then validateSkipStage params
  else if stageName = "$bucket" then validateBucketStage params
  else if stageName = "$bucketAuto" then validateBucketAutoStage params
  else if stageName = "$lookup" then validateLookupStage params
  else if stageName = "$unset" then
    match validateUnsetStage (.doc params) with
    | .ok _ => .ok ()
    | .error e => .error e
  else if stageName = "$unwind" then validateUnwindStage params
  else if stageName = "$addFields" ∨ stageName = "$set" then validateAddFieldsStage params
  else .error ("unsupported aggregation stage: " ++ stageName)
termination_by (sizeOf params, 2)

/-- `validateFacetStage`: every facet value is an array of one-operator
stage objects, each recursively validated (sub-errors wrapped). -/
def validateFacetStage (params : Doc) : Except String Unit :=
  validateFacets params
termination_by (sizeOf params, 1)

def validateFacets : List (String × Value) → Except String Unit
  | [] => .ok ()
  | (facetName, facetPipelines) :: rest =>
    match facetPipelines with
    | .arr pipelines => do
      validatePipelineList pipelines
      validateFacets rest
    | _ =>
      .error ("$facet: each value must be an array of pipeline stages. Facet "
        ++ facetName ++ " invalid")
termination_by l => (sizeOf l, 0)

def validatePipelineList : List Value → Except String Unit
  | [] => .ok ()
  | stageAny :: rest =>
    match stageAny with
    | .doc [(op, opParams)] =>
      (match validateStage op (asMap opParams) with
       | .error e => .error ("$facet: sub-stage " ++ op ++ " invalid: " ++ e)
       | .ok () => validatePipelineList rest)
    | .doc _ => .error "$facet: pipeline stage must have exactly one operator"
    | _ => .error "$facet: pipeline stage must be an object"
termination_by l => (sizeOf l, 0)
decreasing_by
  all_goals simp_wf
  · have h := sizeOf_asMap_le opParams
    simp only [Prod.lex_iff]
    omega
  · simp only [Prod.lex_iff]; omega

end

/-- One decoded wire-format stage object: the JSON object `{"$stage": params}`
after `json.Unmarshal` (normally single-key; Go ranges over its keys). -/
abbrev StageObj := List (String × Value)

/-- A parsed stage: tag and validated params (`AggregationStage`). -/
abbrev AggregationStage := String × Doc

/-- The params-map coercion inside `parseAggregationStagesJSON`'s type
switch: objects pass through, a bare string becomes `{"path": v}`, a bare
scalar becomes `{"value": v}`, anything else (`nil`, arrays) is a parse
error. -/
def mkParamsMap (stageName : String) (v : Value) : Except String Doc :=
  match v with
  | .doc m => .ok m
  | .str s => .ok [("path", .str s)]
  | .num q => .ok [("value", .num q)]
  | .bool b => .ok [("value", .bool b)]
  | _ => .error ("invalid parameters for stage " ++ stageName)

/-- The inner loop of `parseAggregationStagesJSON` over one stage object's
keys (map-iteration order; single-key objects are order-independent). -/
def parseStageObj : StageObj → Except String (List AggregationStage)
  | [] => .ok []
  | (stageName, v) :: others => do
    let pm ← mkParamsMap stageName v
    match validateStage stageName pm with
    | .error e => .error e
    | .ok () => do
      let more ← parseStageObj others
      .ok ((stageName, pm) :: more)

/-- `parseAggregationStagesJSON`, modelled from the point where
`json.Unmarshal` has decoded the (bracket-wrapped) query string into the
stage-object array; JSON syntax errors are out of scope.  Validation is
eager: the first invalid stage rejects the whole pipeline. -/
def parseAggregationStagesJSON : List StageObj → Except String (List AggregationStage)
  | [] => .ok []
  | stageMap :: rest => do
    let stages ← parseStageObj stageMap
    let more ← parseAggregationStagesJSON rest
    .ok (stages ++ more)

/-- The per-stage dispatch of `Query`'s switch statement.  `$unionWith`,
`$redact`, `$graphLookup`, `$geoNear`, `$fill`, `$replaceRoot`,
`$replaceWith` and — notably — `$set` are empty cases: the working sequence
passes through unchanged.  The `$limit` case's `stageInput == nil` check is
modelled as never firing: with a non-empty input (guaranteed by the runner
loop) every `limitStage` return path yields the non-nil input, a fresh
empty slice, or a prefix slice, none of which is a nil slice.  A `$unset`
error is discarded, leaving a nil working sequence. -/
def dispatchStage (F : GoFloatOps) (σ : Sched) (db : DB) (stage : String)
    (ps : Doc) (input : List Doc) : Except String (List Doc) :=
  if stage = "$match" then .ok (matchStage F input ps)
  else if stage = "$project" then .ok (projectStage F σ input ps)
  else if stage = "$group" then groupStage F σ input ps
  else if stage = "$facet" then facetStage F σ db input ps
  else if stage = "$sort" then .ok (sortStage F σ input ps)
  else if stage = "$limit" then .ok (limitStage input ps)
  else if stage = "$skip" then .ok (skipStage input ps)
  else if stage = "$lookup" then lookupStage db input ps
  else if stage = "$unwind" then .ok (unwindStage input ps)
  else if stage = "$sample" then
    match sampleStage σ input ps with
    | .error e => .error ("error in $sample stage: " ++ e)
    | .ok r => .ok r
  else if stage = "$sortByCount" then
    match sortByCountStage σ input ps with
    | .error e => .error ("error in $sortByCount stage: " ++ e)
    | .ok r => .ok r
  else if stage = "$count" then
    match countStage input (.doc ps) with
    | .error e => .error ("error in $count stage: " ++ e)
    | .ok r => .ok r
  else if stage = "$unset" then
    match unsetStage input (.doc ps) with
    | .error _ => .ok []
    | .ok r => .ok r
  else if stage = "$addFields" then
    match addFieldsStage F σ input ps with
    | .error e => .error ("error in $addFields stage: " ++ e)
    | .ok r => .ok r
  else if stage = "$bucket" then
    match bucketStage F σ input ps with
    | .error e => .error ("error in $bucket stage: " ++ e)
    | .ok r => .ok r
  else if stage = "$bucketAuto" then
    match bucketAutoStage F σ input ps with
    | .error e => .error ("error in $bucketAuto stage: " ++ e)
    | .ok r => .ok r
  else .ok input

/-- The stage loop of `Query`: run each stage in order, stopping — and
returning the (empty) working sequence — as soon as it empties. -/
def runStages (F : GoFloatOps) (σ : Sched) (db : DB) :
    List AggregationStage → List Doc → Except String (List Doc)
  | [], input => .ok input
  | (stage, ps) :: rest, input => do
    let out ← dispatchStage F σ db stage ps input
    if out.length = 0 then .ok out
    else runStages F σ db rest out

/-- `Query` (query_core.go): parse and validate the pipeline (errors are
wrapped and returned before anything runs), fetch the collection (its error
return is discarded), return immediately on an empty input sequence, then
run the stages. -/
def Query (F : GoFloatOps) (σ : Sched) (db : DB) (collectionName : String)
    (pipeline : List StageObj) : Except String (List Doc) :=
  match parseAggregationStagesJSON pipeline with
  | .error e => .error ("error parsing aggregation stages: " ++ e)
  | .ok stages =>
    let stageInput := (db.Collection collectionName).toOption.getD []
    if stageInput.length = 0 then .ok []
    else runStages F σ db stages stageInput

/-- A trivial instantiation of the abstracted float operations, used to
state concrete counterexamples and witnesses (every general theorem holds
for all instantiations). -/
def F0 : GoFloatOps :=
  { fmtF := fun _ => "", sqrtF := fun _ => 0, fmtDate := fun _ _ => "",
    regexF := fun _ _ => false }

/-- The schedule that iterates every map in reverse encounter order — a
second concrete valid execution, used to exhibit map-iteration-order
nondeterminism. -/
def revSched : Sched :=
  { mapOrder := List.reverse, groupOrder := List.reverse,
    countOrder := List.reverse, valOrder := List.reverse,
    randSeq := fun _ => 0 }

theorem revSched_valid : ValidSched revSched :=
  ⟨fun m => m.reverse_perm, fun g => g.reverse_perm,
   fun c => c.reverse_perm, fun v => v.reverse_perm⟩

/-! ## Supporting lemmas -/

theorem doc_find?_insert_self (d : Doc) (k : String) (v : Value) :
    Doc.find? (d.insert k v) k = some v := by
  induction d with
  | nil => simp [Doc.insert, Doc.find?, List.lookup]
  | cons hd tl ih =>
    obtain ⟨k', v'⟩ := hd
    by_cases h : k' = k
    · simp [Doc.insert, h, Doc.find?, List.lookup]
    · simp only [Doc.insert, if_neg h]
      simpa [Doc.find?, List.lookup, beq_false_of_ne (Ne.symm h)] using ih

theorem doc_find?_insert_ne (d : Doc) (k k' : String) (v : Value) (h : k' ≠ k) :
    Doc.find? (d.insert k v) k' = Doc.find? d k' := by
  induction d with
  | nil => simp [Doc.insert, Doc.find?, List.lookup, beq_false_of_ne h]
  | cons hd tl ih =>
    obtain ⟨k₀, v₀⟩ := hd
    by_cases h0 : k₀ = k
    · subst h0
      simp [Doc.insert, Doc.find?, List.lookup, beq_false_of_ne h]
    · simp only [Doc.insert, if_neg h0]
      by_cases h1 : k' = k₀
      · subst h1
        simp [Doc.find?, List.lookup]
      · simp only [Doc.find?, List.lookup, beq_false_of_ne h1] at ih ⊢
        exact ih

/-! ## C9: `$skip` then `$limit` -/

theorem limitStage_eq_take (input : List Doc) (n : ℕ) :
    limitStage input [("value", .num (n : ℚ))] = input.take n := by
  have hfind : Doc.find? [("value", Value.num (n : ℚ))] "$limit" = none := by
    simp [Doc.find?, List.lookup]
  have hfind2 : Doc.find? [("value", Value.num (n : ℚ))] "value"
      = some (Value.num (n : ℚ)) := by
    simp [Doc.find?, List.lookup]
  have htr : ratTrunc ((n : ℚ)) = (n : ℤ) := by
    simp [ratTrunc, Nat.cast_nonneg]
  simp only [limitStage, hfind, hfind2, toFloat64?, toFloat64, htr]
  rcases Nat.eq_zero_or_pos n with h0 | hpos
  · subst h0; simp
  · rw [if_neg (by omega : ¬ ((n : ℤ) ≤ 0))]
    by_cases hlen : (n : ℤ) ≥ (input.length : ℤ)
    · rw [if_pos hlen]
      exact (List.take_of_length_le (by exact_mod_cast hlen)).symm
    · rw [if_neg hlen]
      simp

theorem skipStage_eq_drop (input : List Doc) (k : ℕ) :
    skipStage input [("value", .num (k : ℚ))] = input.drop k := by
  have hfind : Doc.find? [("value", Value.num (k : ℚ))] "$skip" = none := by
    simp [Doc.find?, List.lookup]
  have hfind2 : Doc.find? [("value", Value.num (k : ℚ))] "value"
      = some (Value.num (k : ℚ)) := by
    simp [Doc.find?, List.lookup]
  have hfl : ⌊(k : ℚ)⌋ = (k : ℤ) := by exact_mod_cast Int.floor_natCast k
  simp only [skipStage, hfind, hfind2, toFloat64?, toFloat64, hfl]
  have hmax : (max 0 (k : ℤ)).toNat = k := by omega
  rw [hmax]
  by_cases hlen : k > input.length
  · rw [if_pos hlen]
    exact (List.drop_eq_nil_of_le (by omega)).symm
  · rw [if_neg hlen]

/-- C9: applying `$skip(k)` then `$limit(n)` to a sequence of length `L`
returns exactly `max(0, min(n, L-k))` documents, and re-applying `$limit(n)`
to a sequence already of length at most `n` leaves it unchanged. -/
theorem skip_then_limit_count (input : List Doc) (k n : ℕ) :
    (((limitStage (skipStage input [("value", .num (k : ℚ))])
        [("value", .num (n : ℚ))]).length : ℤ)
      = max 0 (min (n : ℤ) ((input.length : ℤ) - (k : ℤ))))
    ∧ (input.length ≤ n → limitStage input [("value", .num (n : ℚ))] = input) := by
  constructor
  · rw [skipStage_eq_drop, limitStage_eq_take]
    simp only [List.length_take, List.length_drop]
    omega
  · intro hle
    rw [limitStage_eq_take]
    exact List.take_of_length_le hle

/-- C9 witness: a concrete run of `$skip(2)` then `$limit(3)` over five
documents yields `min(3, 5-2) = 3` documents, and `$limit(7)` fixes a
5-document sequence. -/
theorem skip_then_limit_count_witness :
    ((limitStage (skipStage [[("i", Value.num 1)], [("i", Value.num 2)],
          [("i", Value.num 3)], [("i", Value.num 4)], [("i", Value.num 5)]]
          [("value", .num (2 : ℚ))]) [("value", .num (3 : ℚ))]).length : ℤ) = 3
    ∧ limitStage [[("i", Value.num 1)], [("i", Value.num 2)], [("i", Value.num 3)],
          [("i", Value.num 4)], [("i", Value.num 5)]] [("value", .num (7 : ℚ))]
        = [[("i", Value.num 1)], [("i", Value.num 2)], [("i", Value.num 3)],
           [("i", Value.num 4)], [("i", Value.num 5)]] := by
  constructor
  · have h := (skip_then_limit_count
      [[("i", Value.num 1)], [("i", Value.num 2)], [("i", Value.num 3)],
       [("i", Value.num 4)], [("i", Value.num 5)]] 2 3).1
    simpa using h
  · have h := (skip_then_limit_count
      [[("i", Value.num 1)], [("i", Value.num 2)], [("i", Value.num 3)],
       [("i", Value.num 4)], [("i", Value.num 5)]] 0 7).2 (by simp)
    simpa using h

/-! ## C10: `$sample` with `size ≥ len` is a permutation -/

theorem cons_set_perm {α : Type} (as : List α) (k : ℕ) (hk : k < as.length) (a : α) :
    (as[k] :: as.set k a).Perm (a :: as) := by
  induction as generalizing k with
  | nil => simp at hk
  | cons x xs ih =>
    cases k with
    | zero => simpa using List.Perm.swap a x xs
    | succ k =>
      have hk' : k < xs.length := by simpa using hk
      have step1 : (xs[k] :: x :: xs.set k a).Perm (x :: xs[k] :: xs.set k a) :=
        List.Perm.swap x (xs[k]) (xs.set k a)
      have step2 : (x :: xs[k] :: xs.set k a).Perm (x :: (a :: xs)) := (ih k hk').cons x
      have step3 : (x :: a :: xs).Perm (a :: x :: xs) := List.Perm.swap a x xs
      simpa using (step1.trans step2).trans step3

theorem set_set_perm {α : Type} (l : List α) (i j : ℕ) (hi : i < l.length)
    (hj : j < l.length) : ((l.set i l[j]).set j l[i]).Perm l := by
  induction l generalizing i j with
  | nil => simp at hi
  | cons x xs ih =>
    cases i with
    | zero =>
      cases j with
      | zero => simp
      | succ j =>
        have hj' : j < xs.length := by simpa using hj
        simpa using cons_set_perm xs j hj' x
    | succ i =>
      cases j with
      | zero =>
        have hi' : i < xs.length := by simpa using hi
        simpa using cons_set_perm xs i hi' x
      | succ j =>
        have hi' : i < xs.length := by simpa using hi
        have hj' : j < xs.length := by simpa using hj
        simpa using (ih i j hi' hj').cons x

theorem swapList_perm {α : Type} (l : List α) (i j : ℕ) : (swapList l i j).Perm l := by
  unfold swapList
  cases hli : l[i]? with
  | none => exact List.Perm.refl l
  | some xi =>
    cases hlj : l[j]? with
    | none => exact List.Perm.refl l
    | some xj =>
      have hi := (List.getElem?_eq_some.mp hli).1
      have hj := (List.getElem?_eq_some.mp hlj).1
      have hxi : xi = l[i] := ((List.getElem?_eq_some.mp hli).2).symm
      have hxj : xj = l[j] := ((List.getElem?_eq_some.mp hlj).2).symm
      subst hxi hxj
      exact set_set_perm l i j hi hj

theorem shuffleAux_perm {α : Type} (r : ℕ → ℕ) (i : ℕ) (l : List α) :
    (shuffleAux r i l).Perm l := by
  induction i generalizing l with
  | zero => exact List.Perm.refl l
  | succ i ih =>
    exact (ih _).trans (swapList_perm l (i + 1) (r (i + 1) % (i + 2)))

theorem shuffleGo_perm {α : Type} (r : ℕ → ℕ) (l : List α) : (shuffleGo r l).Perm l :=
  shuffleAux_perm r (l.length - 1) l

/-- C10: whenever `$sample`'s numeric `size` is at least the input length —
for *every* outcome of the random source — the stage succeeds and returns a
permutation of the input: every input document exactly once. -/
theorem sample_size_ge_len_perm (σ : Sched) (input : List Doc) (params : Doc)
    (sizeVal : Value) (s : ℚ)
    (hfind : Doc.find? params "size" = some sizeVal)
    (hconv : toFloat64 sizeVal = some s)
    (hge : (input.length : ℚ) ≤ s) :
    ∃ out, sampleStage σ input params = .ok out ∧ out.Perm input := by
  simp only [sampleStage, hfind, hconv]
  by_cases hzero : (max 0 ⌊s⌋).toNat = 0
  · have hfloor : (input.length : ℤ) ≤ ⌊s⌋ := by
      have := Int.le_floor.mpr (by exact_mod_cast hge)
      simpa using this
    have hlen0 : input.length = 0 := by omega
    have hnil : input = [] := List.length_eq_zero.mp hlen0
    subst hnil
    exact ⟨[], by simp [hzero], List.Perm.refl []⟩
  · have hfloor : (input.length : ℤ) ≤ ⌊s⌋ := by
      have := Int.le_floor.mpr (by exact_mod_cast hge)
      simpa using this
    have hge' : (max 0 ⌊s⌋).toNat ≥ input.length := by omega
    refine ⟨shuffleGo σ.randSeq input, ?_, shuffleGo_perm _ _⟩
    simp [hzero, hge']

/-- C10 witness: sampling 5 from a 2-document collection with the all-zero
random source returns both documents exactly once. -/
theorem sample_size_ge_len_perm_witness :
    2 ≤ (5 : ℚ)
    ∧ (∃ out, sampleStage idSched [[("a", Value.num 1)], [("b", Value.num 2)]]
        [("size", .num 5)] = .ok out
        ∧ out.Perm [[("a", Value.num 1)], [("b", Value.num 2)]]) :=
  ⟨by norm_num,
   sample_size_ge_len_perm idSched [[("a", Value.num 1)], [("b", Value.num 2)]]
     [("size", .num 5)] (.num 5) 5 (by simp [Doc.find?, List.lookup]) rfl
     (by norm_num)⟩

/-! ## C2: an unparsable `$limit` value is pipeline-fatal -/

theorem bindE_error {α β : Type} (e : String) (f : α → Except String β) :
    (Except.error e >>= f) = Except.error e := rfl

theorem bindE_ok {α β : Type} (a : α) (f : α → Except String β) :
    (Except.ok a >>= f) = f a := rfl

/-- A `$limit` stage value whose constructed params map has *neither* the
`$limit` key nor the `value` key converting to a number (the claim's
hypothesis, stated on whatever params map the parser would build). -/
def badLimitValue (v : Value) : Prop :=
  ∀ ps, mkParamsMap "$limit" v = .ok ps →
    toFloat64? (Doc.find? ps "$limit") = none ∧ toFloat64? (Doc.find? ps "value") = none

theorem validateLimitStage_err (ps : Doc)
    (hv : toFloat64? (Doc.find? ps "value") = none) :
    ∃ e, validateLimitStage ps = .error e := by
  unfold validateLimitStage
  cases hf : Doc.find? ps "value" with
  | none => exact ⟨_, rfl⟩
  | some v =>
    cases v with
    | num q => rw [hf] at hv; simp [toFloat64?, toFloat64] at hv
    | null => exact ⟨_, rfl⟩
    | bool b => exact ⟨_, rfl⟩
    | str s => exact ⟨_, rfl⟩
    | arr l => exact ⟨_, rfl⟩
    | doc d => exact ⟨_, rfl⟩

theorem parseStageObj_badLimit_err (v : Value) (hbad : badLimitValue v) :
    ∃ e, parseStageObj [("$limit", v)] = .error e := by
  unfold parseStageObj
  cases hmk : mkParamsMap "$limit" v with
  | error e => exact ⟨e, by simp [hmk, bindE_error]⟩
  | ok ps =>
    obtain ⟨-, hval⟩ := hbad ps hmk
    obtain ⟨e, he⟩ := validateLimitStage_err ps hval
    have hvs : validateStage "$limit" ps = .error e := by
      unfold validateStage
      simpa using he
    exact ⟨e, by simp [hmk, bindE_ok, hvs]⟩

theorem parse_mem_err (pipeline : List StageObj) (so : StageObj)
    (hmem : so ∈ pipeline) (herr : ∃ e, parseStageObj so = .error e) :
    ∃ e, parseAggregationStagesJSON pipeline = .error e := by
  induction pipeline with
  | nil => cases hmem
  | cons hd tl ih =>
    rcases List.mem_cons.mp hmem with rfl | hmem'
    · obtain ⟨e, he⟩ := herr
      exact ⟨e, by simp [parseAggregationStagesJSON, he, bindE_error]⟩
    · cases hhd : parseStageObj hd with
      | error e => exact ⟨e, by simp [parseAggregationStagesJSON, hhd, bindE_error]⟩
      | ok stages =>
        obtain ⟨e, he⟩ := ih hmem'
        exact ⟨e, by simp [parseAggregationStagesJSON, hhd, he, bindE_ok, bindE_error]⟩

/-- C2: when a pipeline contains a `$limit` stage whose value cannot be
parsed as a number (neither the `$limit` key nor the `value` key of its
constructed params converts), `Query` returns a top-level error — before
any stage executes, for every collection — rather than passing the input
through unchanged.  (The mechanism is the eager validator: a value the
executor cannot convert is never a `float64` under the `value` key, which
`validateLimitStage` requires.) -/
theorem query_bad_limit_err (F : GoFloatOps) (σ : Sched) (db : DB)
    (coll : String) (pipeline : List StageObj) (v : Value)
    (hmem : [("$limit", v)] ∈ pipeline) (hbad : badLimitValue v) :
    ∃ e, Query F σ db coll pipeline = .error e := by
  obtain ⟨e, he⟩ := parse_mem_err pipeline [("$limit", v)] hmem
    (parseStageObj_badLimit_err v hbad)
  exact ⟨"error parsing aggregation stages: " ++ e, by simp [Query, he]⟩

/-- C2 witness: the pipeline `[{"$limit": "abc"}]` (whose params map is
`{"path": "abc"}` — no numeric key at all) makes `Query` fail on a
non-empty collection. -/
theorem query_bad_limit_err_witness :
    ([("$limit", Value.str "abc")] ∈ [[("$limit", Value.str "abc")]])
    ∧ ∃ e, Query F0 idSched ⟨[("c", [[("x", Value.num 1)]])]⟩ "c"
        [[("$limit", Value.str "abc")]] = .error e := by
  refine ⟨List.mem_singleton.mpr rfl, ?_⟩
  apply query_bad_limit_err F0 idSched ⟨[("c", [[("x", Value.num 1)]])]⟩ "c"
    [[("$limit", Value.str "abc")]] (Value.str "abc")
    (List.mem_singleton.mpr rfl)
  intro ps hps
  have : ps = [("path", Value.str "abc")] := by
    simpa [mkParamsMap] using hps.symm
  subst this
  constructor <;> simp [Doc.find?, List.lookup, toFloat64?, toFloat64, parseRat]

/-! ## C1: `$set` versus `$addFields` in `Query` -/

/-- C1: the divergence at a concrete input.  Over the one-document
collection `c = [{"x": 1}]`, the stage `{"$addFields": {"y": 2}}` writes
the field (`[{"x": 1, "y": 2}]`), but the supposedly equivalent
`{"$set": {"y": 2}}` — validated exactly like `$addFields` by
`validateStage`, and claimed by `addFieldsStage`'s own documentation —
hits the empty `case "$set":` of `Query`'s switch and passes the input
through unchanged (`[{"x": 1}]`). -/
theorem query_set_vs_addFields :
    Query F0 idSched ⟨[("c", [[("x", Value.num 1)]])]⟩ "c"
      [[("$set", Value.doc [("y", Value.num 2)])]]
      = .ok [[("x", Value.num 1)]]
    ∧ Query F0 idSched ⟨[("c", [[("x", Value.num 1)]])]⟩ "c"
      [[("$addFields", Value.doc [("y", Value.num 2)])]]
      = .ok [[("x", Value.num 1), ("y", Value.num 2)]] := by
  have hvalset : validateStage "$set" [("y", Value.num 2)] = .ok () := by
    unfold validateStage
    simp [validateAddFieldsStage, validateAddFieldsStage.go, trimSpace, trimSpace.isSpaceChar,
      List.asString]
  have hvaladd : validateStage "$addFields" [("y", Value.num 2)] = .ok () := by
    unfold validateStage
    simp [validateAddFieldsStage, validateAddFieldsStage.go, trimSpace, trimSpace.isSpaceChar,
      List.asString]
  have haf : addFieldsStage F0 idSched [[("x", Value.num 1)]] [("y", Value.num 2)]
      = .ok [[("x", Value.num 1), ("y", Value.num 2)]] := by
    simp [addFieldsStage, validateAddFieldsStage, validateAddFieldsStage.go, trimSpace,
      trimSpace.isSpaceChar, List.asString, addFieldsStage.goDocs, addFieldsStage.goFields,
      idSched, dbEvaluateExpression, Doc.insert, bindE_ok, bindE_error]
  constructor
  · simp [Query, parseAggregationStagesJSON, parseStageObj, mkParamsMap, hvalset,
      DB.Collection, List.lookup, runStages, dispatchStage, bindE_ok, bindE_error,
      Except.toOption]
  · simp [Query, parseAggregationStagesJSON, parseStageObj, mkParamsMap, hvaladd,
      DB.Collection, List.lookup, runStages, dispatchStage, bindE_ok, bindE_error,
      Except.toOption, haf]

/-! ## C5: mixed 1/0 `$project` specifications -/

theorem dpm_go_error : ∀ (l : List (String × Value)) (hasInc hasExc : Bool),
    (hasInc = true ∨ ∃ f, f ≠ "_id" ∧ (f, Value.num 1) ∈ l) →
    (hasExc = true ∨ ∃ g, g ≠ "_id" ∧ (g, Value.num 0) ∈ l) →
    ¬ (hasInc = true ∧ hasExc = true) →
    ∃ e, determineProjectionMode.go l hasInc hasExc = .error e := by
  intro l
  induction l with
  | nil =>
    intro hasInc hasExc h1 h2 h3
    rcases h1 with h1 | ⟨f, _, hm⟩
    · rcases h2 with h2 | ⟨g, _, hm⟩
      · exact absurd ⟨h1, h2⟩ h3
      · cases hm
    · cases hm
  | cons hd tl ih =>
    intro hasInc hasExc h1 h2 h3
    obtain ⟨field, raw⟩ := hd
    match raw with
    | .num spec =>
      by_cases hid : field = "_id"
      · subst hid
        simp only [determineProjectionMode.go, if_pos rfl]
        apply ih hasInc hasExc ?_ ?_ h3
        · rcases h1 with h | ⟨f, hf, hm⟩
          · exact Or.inl h
          · rcases List.mem_cons.mp hm with heq | hmem
            · exact absurd (congrArg Prod.fst heq) (by simpa using hf)
            · exact Or.inr ⟨f, hf, hmem⟩
        · rcases h2 with h | ⟨g, hg, hm⟩
          · exact Or.inl h
          · rcases List.mem_cons.mp hm with heq | hmem
            · exact absurd (congrArg Prod.fst heq) (by simpa using hg)
            · exact Or.inr ⟨g, hg, hmem⟩
      · simp only [determineProjectionMode.go, if_neg hid]
        set inc' := if spec = 1 then true else hasInc with hinc
        set exc' := if spec = 0 then true else hasExc with hexc
        by_cases hboth : inc' = true ∧ exc' = true
        · rw [if_pos (by simpa using hboth)]
          exact ⟨_, rfl⟩
        · rw [if_neg (by simpa using hboth)]
          apply ih inc' exc' ?_ ?_ hboth
          · rcases h1 with h | ⟨f, hf, hm⟩
            · left; simp [hinc, h]
            · rcases List.mem_cons.mp hm with heq | hmem
              · have : spec = 1 := by
                  have h := congrArg Prod.snd heq
                  simpa using h.symm
                left; simp [hinc, this]
              · right; exact ⟨f, hf, hmem⟩
          · rcases h2 with h | ⟨g, hg, hm⟩
            · left; simp [hexc, h]
            · rcases List.mem_cons.mp hm with heq | hmem
              · have : spec = 0 := by
                  have h := congrArg Prod.snd heq
                  simpa using h.symm
                left; simp [hexc, this]
              · right; exact ⟨g, hg, hmem⟩
    | .null | .bool _ | .str _ | .arr _ | .doc _ =>
      simp only [determineProjectionMode.go]
      apply ih hasInc hasExc ?_ ?_ h3
      · rcases h1 with h | ⟨f, hf, hm⟩
        · exact Or.inl h
        · rcases List.mem_cons.mp hm with heq | hmem
          · exact absurd (congrArg Prod.snd heq) (by simp)
          · exact Or.inr ⟨f, hf, hmem⟩
      · rcases h2 with h | ⟨g, hg, hm⟩
        · exact Or.inl h
        · rcases List.mem_cons.mp hm with heq | hmem
          · exact absurd (congrArg Prod.snd heq) (by simp)
          · exact Or.inr ⟨g, hg, hmem⟩

theorem validateProject_go_ok (l : List (String × Value))
    (hall : ∀ kv ∈ l, kv.2 = Value.num 1 ∨ kv.2 = Value.num 0) :
    validateProjectStage.go l = .ok () := by
  induction l with
  | nil => rfl
  | cons hd tl ih =>
    obtain ⟨field, raw⟩ := hd
    rcases hall (field, raw) (List.mem_cons_self _ _) with h | h <;> subst h <;>
      simpa [validateProjectStage.go] using
        ih (fun kv hkv => hall kv (List.mem_cons_of_mem _ hkv))

/-- C5 counterexample: the pipeline `[{"$project": {"a": 1, "b": 0}}]` —
which mixes inclusion and exclusion on non-`_id` fields — is *not* rejected:
validation passes, and `Query` returns the input unchanged (the mode error
is only detected inside `projectStage`, which degrades). -/
theorem query_mixed_project_not_rejected :
    Query F0 idSched
      ⟨[("c", [[("x", Value.num 1), ("a", Value.num 2), ("b", Value.num 3)]])]⟩ "c"
      [[("$project", Value.doc [("a", Value.num 1), ("b", Value.num 0)])]]
      = .ok [[("x", Value.num 1), ("a", Value.num 2), ("b", Value.num 3)]] := by
  have hval : validateStage "$project" [("a", Value.num 1), ("b", Value.num 0)] = .ok () := by
    unfold validateStage
    simp [validateProjectStage, validateProjectStage.go]
  simp [Query, parseAggregationStagesJSON, parseStageObj, mkParamsMap, hval,
    DB.Collection, List.lookup, runStages, dispatchStage, bindE_ok, bindE_error,
    Except.toOption, projectStage, determineProjectionMode, determineProjectionMode.go,
    idSched]

/-- C5 amended: a `$project` specification of numeric 1/0 specs that mixes
1 and 0 on fields other than `_id` *passes* `validateProjectStage`; the mix
is detected only at execution, where `projectStage` degrades by returning
its input unchanged (logged) — it is not pipeline-fatal and not rejected
before execution. -/
theorem project_mixed_spec_degrades (params : Doc) (f g : String)
    (hf : f ≠ "_id") (hg : g ≠ "_id")
    (hfm : (f, Value.num 1) ∈ params) (hgm : (g, Value.num 0) ∈ params)
    (hall : ∀ kv ∈ params, kv.2 = Value.num 1 ∨ kv.2 = Value.num 0) :
    validateProjectStage params = .ok ()
    ∧ ∀ (F : GoFloatOps) (σ : Sched) (input : List Doc), ValidSched σ →
        projectStage F σ input params = input := by
  constructor
  · have hne : params ≠ [] := by rintro rfl; cases hfm
    unfold validateProjectStage
    rw [if_neg (by simpa [List.length_eq_zero] using hne)]
    exact validateProject_go_ok params hall
  · intro F σ input hσ
    have hperm : (σ.mapOrder params).Perm params := hσ.1 params
    obtain ⟨e, he⟩ := dpm_go_error (σ.mapOrder params) false false
      (Or.inr ⟨f, hf, hperm.mem_iff.mpr hfm⟩)
      (Or.inr ⟨g, hg, hperm.mem_iff.mpr hgm⟩)
      (by simp)
    unfold projectStage determineProjectionMode
    rw [he]

/-- C5 witness: `{"a": 1, "b": 0}` passes validation and leaves a concrete
document sequence untouched. -/
theorem project_mixed_spec_degrades_witness :
    validateProjectStage [("a", Value.num 1), ("b", Value.num 0)] = .ok ()
    ∧ projectStage F0 idSched [[("x", Value.num 5)]]
        [("a", Value.num 1), ("b", Value.num 0)] = [[("x", Value.num 5)]] := by
  obtain ⟨h1, h2⟩ := project_mixed_spec_degrades
    [("a", Value.num 1), ("b", Value.num 0)] "a" "b"
    (by simp) (by simp)
    (by simp) (by simp)
    (by
      intro kv hkv
      simp only [List.mem_cons, List.not_mem_nil, or_false] at hkv
      rcases hkv with rfl | rfl
      · left; rfl
      · right; rfl)
  exact ⟨h1, h2 F0 idSched [[("x", Value.num 5)]] idSched_valid⟩

/-! ## C7: `$group` key resolution for a non-`$`-string `_id` -/

/-- `buildGroups` over inputs that all map `field` to the same comparable
key `k` extends the single existing `k`-partition in input order. -/
lemma buildGroups_const (field : String) (k : Value) (hk : k.comparable = true) :
    ∀ (ds : List Doc) (acc : List Doc), (∀ d ∈ ds, (Doc.find? d field).getD .null = k) →
      buildGroups field ds [(k, acc)] = .ok [(k, acc ++ ds)] := by
  intro ds
  induction ds with
  | nil => intro acc _; simp [buildGroups]
  | cons d rest ih =>
    intro acc hall
    have hkey : (Doc.find? d field).getD .null = k := hall d (List.mem_cons_self _ _)
    simp only [buildGroups, hkey, hk, if_pos, appendGroup, if_pos rfl]
    have := ih (acc ++ [d]) (fun x hx => hall x (List.mem_cons_of_mem _ hx))
    simpa using this

/-- C7 counterexample: when `_id` is not a `$`-prefixed string the group key
field stays `""`, and documents are still partitioned by top-level access on
that *empty-string* field.  Documents carrying a literal `""` key therefore
split into several groups whose `_id`s are their `""`-values — here `1` and
`2` — instead of the claimed single group with `_id = null`. -/
theorem group_nonstring_id_counterexample :
    groupStage F0 idSched [[("", Value.num 1)], [("", Value.num 2)]]
        [("_id", Value.num 7)]
      = .ok [[("_id", Value.num 1)], [("_id", Value.num 2)]]
    ∧ (Except.ok [[("_id", Value.num 1)], [("_id", Value.num 2)]] :
        Except String (List Doc))
      ≠ .ok [[("_id", Value.null)]] :=
  ⟨rfl, by intro h; simp at h⟩

/-- C7 (amended): if the `_id` parameter is not a `$`-prefixed string, the
group key field is the empty string, so provided no input document carries a
top-level `""` key (and the input is nonempty — an empty input yields zero
groups), every document lands in the single `nil`-keyed group: the stage
outputs exactly one document, `processGroup` applied to `(.null, input)`,
whose `_id` is `null` and whose accumulators range over all input
documents. -/
theorem group_nonstring_id_single_group (F : GoFloatOps) (σ : Sched)
    (hσ : ValidSched σ) (input : List Doc) (params : Doc)
    (hid : ∀ s, Doc.find? params "_id" = some (.str s) → strStartsWith s "$" = false)
    (hempty : ∀ d ∈ input, (Doc.find? d "").getD .null = .null)
    (hne : input ≠ []) :
    groupStage F σ input params
      = (processGroup F σ (aggExpressionsOf params) (.null, input)).map
          (fun g => [g]) := by
  have hfield : groupIDFieldOf params = "" := by
    unfold groupIDFieldOf
    cases hf : Doc.find? params "_id" with
    | none => rfl
    | some v =>
      cases v with
      | str s => simp [hid s hf]
      | null => rfl
      | bool b => rfl
      | num q => rfl
      | arr l => rfl
      | doc d => rfl
  obtain ⟨d, ds, rfl⟩ := List.exists_cons_of_ne_nil hne
  have hbuild : buildGroups "" (d :: ds) [] = .ok [(.null, d :: ds)] := by
    have hkey : (Doc.find? d "").getD .null = Value.null := hempty d (List.mem_cons_self _ _)
    simp only [buildGroups, hkey, Value.comparable, if_pos, appendGroup]
    have := buildGroups_const "" .null rfl ds [d]
      (fun x hx => hempty x (List.mem_cons_of_mem _ hx))
    simpa using this
  have hord : σ.groupOrder [(Value.null, d :: ds)] = [(Value.null, d :: ds)] :=
    List.perm_singleton.mp (hσ.2.1 [(Value.null, d :: ds)])
  simp only [groupStage, hfield, hbuild, bindE_ok, hord]
  cases hpg : processGroup F σ (aggExpressionsOf params) (Value.null, d :: ds) with
  | error e => simp [List.mapM.loop, hpg, bindE_error, Except.map]
  | ok g => simp [List.mapM.loop, hpg, bindE_ok, Except.map]

/-- C7 witness: a `$group` with constant `_id: 7` and a `$sum` accumulator
over two `""`-free documents produces the single `null`-keyed group. -/
theorem group_nonstring_id_single_group_witness :
    groupStage F0 idSched [[("a", Value.num 1)], [("a", Value.num 2)]]
        [("_id", Value.num 7), ("t", Value.doc [("$sum", Value.num 1)])]
      = (processGroup F0 idSched
          (aggExpressionsOf
            [("_id", Value.num 7), ("t", Value.doc [("$sum", Value.num 1)])])
          (Value.null, [[("a", Value.num 1)], [("a", Value.num 2)]])).map
          (fun g => [g]) :=
  group_nonstring_id_single_group F0 idSched idSched_valid
    [[("a", Value.num 1)], [("a", Value.num 2)]]
    [("_id", Value.num 7), ("t", Value.doc [("$sum", Value.num 1)])]
    (by intro s h; simp [Doc.find?, List.lookup] at h)
    (by decide) (by decide)

/-! ## C6: `$unwind` then `$group`/`$push` round-trip -/

/-- Mapping a function that ignores the index over an enumerated list. -/
lemma map_enumFrom_comp_snd {α β : Type} (g : α → β) :
    ∀ (l : List α) (n : ℕ), List.map (g ∘ Prod.snd) (List.enumFrom n l) = l.map g := by
  intro l
  induction l with
  | nil => intro n; rfl
  | cons x xs ih => intro n; simp only [List.enumFrom, List.map, Function.comp, ih]

/-- A dot-free nested read of a field just written by `insert`. -/
lemma getNestedField_insert_doc (d : Doc) (f : String) (m : Doc)
    (hnodot : splitOnDot f = [f]) :
    getNestedField (d.insert f (.doc m)) f = .doc m := by
  simp [getNestedField, hnodot, getNestedFieldGo, doc_find?_insert_self]

/-- `$push` over documents whose `f` field was overwritten with a nested
document collects exactly those nested documents, in order. -/
lemma collectValues_insert (d : Doc) (f p : String)
    (hp : strStartsWith p "$" = true) (hpf : strDrop p 1 = f)
    (hnodot : splitOnDot f = [f]) (ms : List Doc) :
    collectValues (ms.map (fun m => d.insert f (.doc m))) (Value.str p)
      = .arr (ms.map Value.doc) := by
  simp only [collectValues, isFieldRef, hp, if_pos, refField, hpf]
  induction ms with
  | nil => rfl
  | cons m rest ih =>
    simp only [Value.arr.injEq] at ih
    simp only [List.map_cons, List.foldr_cons,
      getNestedField_insert_doc d f m hnodot, Value.arr.injEq]
    rw [ih]

/-- C6 counterexample: unwinding the *scalar* array `[5]` wraps the non-map
element as `{"value": 5}` (written back at the path), so re-collecting the
field with `$push` yields `[{"value": 5}]` — not a permutation of the
original element multiset `[5]`.  The round-trip fails for scalar
elements. -/
theorem unwind_group_scalar_counterexample :
    groupStage F0 idSched
        (unwindStage [[("_id", Value.str "a"), ("xs", Value.arr [Value.num 5])]]
          [("path", Value.str "$xs")])
        [("_id", Value.str "$_id"), ("ys", Value.doc [("$push", Value.str "$xs")])]
      = .ok [[("_id", Value.str "a"),
              ("ys", Value.arr [Value.doc [("value", Value.num 5)]])]]
    ∧ ¬ ([Value.doc [("value", Value.num 5)]].Perm [Value.num 5]) :=
  ⟨rfl, by decide⟩

/-- C6 (amended): the `$unwind` → `$group`-by-`_id`/`$push` round-trip holds
— indeed with the original element *order*, not just the multiset — when
every array element is itself a document: for a document whose comparable
`_id` is `i` and whose dot-free field `f` (distinct from `_id`) holds the
nonempty array `ms.map .doc`, unwinding on `$f` and grouping by `$_id` with
`{out: {$push: "$f"}}` returns the single document
`{_id: i, out: original array}`, under every valid schedule.  (Scalar
elements are wrapped as `{"value": ·}` by `unwindStage` and are *not*
restored — see the counterexample.) -/
theorem unwind_group_push_roundtrip (F : GoFloatOps) (σ : Sched) (hσ : ValidSched σ)
    (d : Doc) (i : Value) (hi : i.comparable = true)
    (p f out : String) (ms : List Doc)
    (hp : strStartsWith p "$" = true) (hpf : strDrop p 1 = f) (hpne : p ≠ "")
    (hfid : f ≠ "_id") (hout : out ≠ "_id")
    (hid : Doc.find? d "_id" = some i)
    (hms : ms ≠ [])
    (hxs : Doc.find? d f = some (.arr (ms.map Value.doc)))
    (hnodot : splitOnDot f = [f]) :
    groupStage F σ (unwindStage [d] [("path", Value.str p)])
        [("_id", Value.str "$_id"), (out, Value.doc [("$push", Value.str p)])]
      = .ok [[("_id", i), (out, Value.arr (ms.map Value.doc))]] := by
  obtain ⟨m0, mrest, rfl⟩ := List.exists_cons_of_ne_nil hms
  have hU : unwindStage [d] [("path", Value.str p)]
      = (m0 :: mrest).map (fun m => d.insert f (.doc m)) := by
    have h1 : Doc.find? [("path", Value.str p)] "path" = some (Value.str p) := rfl
    have h2 : Doc.find? [("path", Value.str p)] "preserveNullAndEmptyArrays" = none := rfl
    have h3 : Doc.find? [("path", Value.str p)] "includeArrayIndex" = none := rfl
    simp only [unwindStage, h1, h2, h3]
    rw [if_neg hpne]
    simp only [hp, if_pos, hpf]
    simp only [List.map, List.flatten, List.append_nil]
    rw [hxs]
    simp only [List.map, List.isEmpty_cons, Bool.false_eq_true, if_false,
      deepCopyDocument, ne_eq, not_true_eq_false, if_true]
    congr 1
    show List.map ((fun v => d.insert f
        (match v with
          | Value.doc m => Value.doc m
          | other => Value.doc [("value", other)])) ∘ Prod.snd)
        (List.enumFrom (0 + 1) (mrest.map Value.doc)) = _
    rw [map_enumFrom_comp_snd, List.map_map]
    rfl
  set U := (m0 :: mrest).map (fun m => d.insert f (.doc m)) with hUdef
  have hkey : ∀ u ∈ U, (Doc.find? u "_id").getD .null = i := by
    intro u hu
    simp only [hUdef, List.mem_map] at hu
    obtain ⟨m, _, rfl⟩ := hu
    rw [doc_find?_insert_ne d f "_id" (.doc m) (fun h => hfid h.symm), hid]
    rfl
  have hbuild : buildGroups "_id" U [] = .ok [(i, U)] := by
    have hkey0 : (Doc.find? (d.insert f (.doc m0)) "_id").getD .null = i :=
      hkey _ (by simp [hUdef])
    simp only [hUdef, List.map_cons, buildGroups, hkey0, hi, if_pos, appendGroup]
    have := buildGroups_const "_id" i hi (mrest.map (fun m => d.insert f (.doc m)))
      [d.insert f (.doc m0)]
      (fun x hx => hkey x (by simp [hUdef, List.mem_cons]; right; simpa using hx))
    simpa using this
  have hfield : groupIDFieldOf
      [("_id", Value.str "$_id"), (out, Value.doc [("$push", Value.str p)])] = "_id" := rfl
  have hagg : aggExpressionsOf
      [("_id", Value.str "$_id"), (out, Value.doc [("$push", Value.str p)])]
      = [(out, [("$push", Value.str p)])] := by
    simp [aggExpressionsOf, List.filterMap, hout]
  have hord : σ.groupOrder [(i, U)] = [(i, U)] :=
    List.perm_singleton.mp (hσ.2.1 [(i, U)])
  have hmap : σ.mapOrder [("$push", Value.str p)] = [("$push", Value.str p)] :=
    List.perm_singleton.mp (hσ.1 [("$push", Value.str p)])
  have hpg : processGroup F σ [(out, [("$push", Value.str p)])] (i, U)
      = .ok [("_id", i), (out, Value.arr ((m0 :: mrest).map Value.doc))] := by
    simp only [processGroup, List.foldlM, hmap, bindE_ok,
      collectValues_insert d f p hp hpf hnodot (m0 :: mrest)]
    simp only [Doc.insert]
    rw [if_neg (show ("_id" = out) → False from fun h => hout h.symm)]
    rfl
  rw [groupStage, hU]
  simp only [hfield, hagg, hUdef] at hbuild hpg ⊢
  simp only [hbuild, bindE_ok, hord] at *
  simp [List.mapM.loop, hpg, bindE_ok, Except.map]

/-- C6 witness: a one-element array of documents survives the
unwind/group/push round-trip. -/
theorem unwind_group_push_roundtrip_witness :
    groupStage F0 idSched
        (unwindStage [[("_id", Value.str "a"),
            ("xs", Value.arr [Value.doc [("v", Value.num 5)]])]]
          [("path", Value.str "$xs")])
        [("_id", Value.str "$_id"), ("ys", Value.doc [("$push", Value.str "$xs")])]
      = .ok [[("_id", Value.str "a"),
              ("ys", Value.arr [Value.doc [("v", Value.num 5)]])]] :=
  unwind_group_push_roundtrip F0 idSched idSched_valid
    [("_id", Value.str "a"), ("xs", Value.arr [Value.doc [("v", Value.num 5)]])]
    (Value.str "a") rfl "$xs" "xs" "ys" [[("v", Value.num 5)]]
    (by decide) (by decide) (by decide) (by decide) (by decide)
    rfl (by decide) rfl (by decide)

/-! ## C4: `$lookup` matching -/

/-- `pure` for `Except` is `ok`; bind reduces. -/
lemma pureE_bind {α β : Type} (a : α) (f : α → Except String β) :
    ((pure a : Except String α) >>= f) = f a := rfl

/-- Go `==` against a scalar left operand is structural equality: with a
comparable (non-slice, non-map) value on one side the comparison never
panics, and two values of different dynamic types are simply unequal. -/
lemma goEq_scalar (fv lv : Value) (h : fv.comparable = true) :
    goEq fv lv = .ok (decide (fv = lv)) := by
  cases fv <;> cases lv <;> simp_all [goEq, Value.comparable, decide_eq_decide]

/-- The `findMatchingDocuments` fold is a filter by structural equality when
every foreign key value is comparable. -/
lemma foldlM_lookup_filter (lv : Value) (ff : String) :
    ∀ (foreign : List Doc) (acc : List Doc),
      (∀ fd ∈ foreign, ((Doc.find? fd ff).getD .null).comparable = true) →
      foreign.foldlM
        (fun acc fd => do
          let eq ← goEq ((Doc.find? fd ff).getD .null) lv
          pure (if eq then acc ++ [deepCopyDocument fd] else acc))
        acc
      = .ok (acc ++ foreign.filter (fun fd => (Doc.find? fd ff).getD .null = lv)) := by
  intro foreign
  induction foreign with
  | nil => intro acc _; simp [List.foldlM, pure, Except.pure]
  | cons fd rest ih =>
    intro acc hall
    have hfd := hall fd (List.mem_cons_self _ _)
    simp only [List.foldlM]
    rw [goEq_scalar _ lv hfd]
    simp only [bindE_ok, pureE_bind]
    by_cases he : (Doc.find? fd ff).getD .null = lv
    · rw [if_pos (by simpa using he)]
      rw [ih (acc ++ [deepCopyDocument fd])
        (fun x hx => hall x (List.mem_cons_of_mem _ hx))]
      simp [List.filter, he, deepCopyDocument]
    · rw [if_neg (by simpa using he)]
      rw [ih acc (fun x hx => hall x (List.mem_cons_of_mem _ hx))]
      simp [List.filter, he]

/-- `mapM` over `Except` with a pointwise-successful function is `map`. -/
lemma mapM_ok {α β : Type} (f : α → Except String β) (g : α → β)
    (hfg : ∀ a, f a = .ok (g a)) :
    ∀ (l : List α) (acc : List β),
      List.mapM.loop f l acc = .ok (acc.reverse ++ l.map g) := by
  intro l
  induction l with
  | nil => intro acc; simp [List.mapM.loop, pure, Except.pure]
  | cons x xs ih => intro acc; simp [List.mapM.loop, hfg x, bindE_ok, ih]

/-- C4 counterexample: matching on a composite value — here the local and
foreign `k` fields both hold arrays — makes Go's `==` panic
(`runtime error: comparing uncomparable type`), so `lookupStage` raises an
error instead of attaching the matched array.  The claim's "this holds for
every value type, including nested documents and arrays" fails. -/
theorem lookup_composite_counterexample :
    lookupStage ⟨[("f", [[("k", Value.arr [])]])]⟩
        [[("k", Value.arr [])]]
        [("from", Value.str "f"), ("localField", Value.str "k"),
         ("foreignField", Value.str "k"), ("as", Value.str "m")]
      = .error "runtime error: comparing uncomparable type []interface {}"
    ∧ (Except.error "runtime error: comparing uncomparable type []interface {}" :
        Except String (List Doc))
      ≠ .ok [[("k", Value.arr []),
              ("m", Value.arr [Value.doc [("k", Value.arr [])]])]] :=
  ⟨rfl, by simp⟩

/-- C4 (amended): when every foreign document's `foreignField` value (with
missing defaulting to `nil`) is *comparable* — not a slice or a map — no
comparison panics, and `$lookup` attaches under `as`, to every input
document, exactly the (possibly empty, never omitted) array of foreign
documents whose `foreignField` value structurally equals the document's
`localField` value; a missing local field matches nothing.  (The copies are
*shallow* — `deepCopyDocument` copies only top-level bindings — which is
invisible at the level of document values.) -/
theorem lookup_matches (db : DB) (input : List Doc) (params : Doc)
    (lp : LookupParameters) (hv : validateLookupParams params = .ok lp)
    (foreign : List Doc) (hc : db.Collection lp.fromColl = .ok foreign)
    (hcomp : ∀ fd ∈ foreign, ((Doc.find? fd lp.foreignField).getD .null).comparable = true) :
    lookupStage db input params
      = .ok (input.map (fun d =>
          Doc.insert d lp.asField (.arr
            ((match Doc.find? d lp.localField with
              | none => []
              | some lv => foreign.filter
                  (fun fd => (Doc.find? fd lp.foreignField).getD .null = lv)).map
              Value.doc)))) := by
  have hf : ∀ d : Doc,
      findMatchingDocuments d foreign lp.localField lp.foreignField
        = .ok (match Doc.find? d lp.localField with
            | none => []
            | some lv => foreign.filter
                (fun fd => (Doc.find? fd lp.foreignField).getD .null = lv)) := by
    intro d
    unfold findMatchingDocuments
    cases hl : Doc.find? d lp.localField with
    | none => rfl
    | some lv => exact foldlM_lookup_filter lv lp.foreignField foreign [] hcomp
  simp only [lookupStage, hv, hc]
  rw [show (input.mapM (fun d => do
      let matched ← findMatchingDocuments d foreign lp.localField lp.foreignField
      Except.ok ((deepCopyDocument d).insert lp.asField (.arr (matched.map Value.doc))))
      : Except String (List Doc))
    = List.mapM.loop _ input [] from rfl]
  rw [mapM_ok _ _ (fun d => by rw [hf d]; rfl) input []]
  rfl

/-- C4 witness: a numeric key matches exactly the foreign documents with the
same number. -/
theorem lookup_matches_witness :
    lookupStage ⟨[("f", [[("k", Value.num 1)], [("k", Value.num 2)]])]⟩
        [[("k", Value.num 1)]]
        [("from", Value.str "f"), ("localField", Value.str "k"),
         ("foreignField", Value.str "k"), ("as", Value.str "m")]
      = .ok ([[("k", Value.num 1)]].map (fun d =>
          Doc.insert d "m" (.arr
            ((match Doc.find? d "k" with
              | none => []
              | some lv => [[("k", Value.num 1)], [("k", Value.num 2)]].filter
                  (fun fd => (Doc.find? fd "k").getD .null = lv)).map
              Value.doc)))) := by
  have := lookup_matches ⟨[("f", [[("k", Value.num 1)], [("k", Value.num 2)]])]⟩
    [[("k", Value.num 1)]]
    [("from", Value.str "f"), ("localField", Value.str "k"),
     ("foreignField", Value.str "k"), ("as", Value.str "m")]
    ⟨"f", "k", "k", "m"⟩ rfl
    [[("k", Value.num 1)], [("k", Value.num 2)]] rfl (by decide)
  simpa using this

/-! ## C3: determinism of pipeline execution -/

set_option maxHeartbeats 800000 in
/-- `processGroup` neither fails nor depends on the schedule when every
aggregation expression has at most one operator (so the map-iteration order
over the expression object cannot matter) and `$addToSet` (whose output
order is the iteration order of a Go set-map) is not used. -/
lemma processGroup_indep (F : GoFloatOps) (σ₁ σ₂ : Sched)
    (h₁ : ValidSched σ₁) (h₂ : ValidSched σ₂)
    (aggs : List (String × Doc)) (g : Value × List Doc)
    (hsimple : ∀ fe ∈ aggs, fe.2.length ≤ 1 ∧ ∀ ov ∈ fe.2, ov.1 ≠ "$addToSet") :
    ∃ r : Doc, processGroup F σ₁ aggs g = .ok r ∧ processGroup F σ₂ aggs g = .ok r := by
  unfold processGroup
  revert hsimple
  generalize [("_id", g.1)] = init
  revert init
  induction aggs with
  | nil => intro init _; exact ⟨init, rfl, rfl⟩
  | cons fe rest ih =>
    intro init hsimple
    obtain ⟨fname, fexpr⟩ := fe
    obtain ⟨hlen, hops⟩ := hsimple (fname, fexpr) (List.mem_cons_self _ _)
    have hrest := fun x hx => hsimple x (List.mem_cons_of_mem _ hx)
    simp only [List.foldlM]
    cases fexpr with
    | nil =>
      rw [(h₁.1 []).eq_nil, (h₂.1 []).eq_nil]
      simp only [List.foldlM, pureE_bind]
      exact ih init hrest
    | cons ov tail =>
      obtain ⟨op, val⟩ := ov
      cases tail with
      | cons x xs => simp at hlen
      | nil =>
        have hov : op ≠ "$addToSet" := by
          simpa using hops (op, val) (List.mem_cons_self _ _)
        rw [List.perm_singleton.mp (h₁.1 [(op, val)]),
            List.perm_singleton.mp (h₂.1 [(op, val)])]
        simp only [List.foldlM]
        split <;> first
          | (exact absurd rfl hov)
          | (simp only [bindE_ok, pureE_bind]; exact ih _ hrest)

/-- C3 counterexample: `groupStage` emits its result documents by *ranging
over the partition map*, so the output order is a map-iteration order.  Both
`idSched` and `revSched` are possible executions (`ValidSched`), yet over
the same collection, in the same order, the same `$group` pipeline returns
the two group documents in different orders.  Execution is not
deterministic, even without `$sample`. -/
theorem query_group_order_counterexample :
    ValidSched idSched ∧ ValidSched revSched
    ∧ Query F0 idSched ⟨[("c", [[("k", Value.str "x")], [("k", Value.str "y")]])]⟩ "c"
        [[("$group", Value.doc [("_id", Value.str "$k")])]]
      = .ok [[("_id", Value.str "x")], [("_id", Value.str "y")]]
    ∧ Query F0 revSched ⟨[("c", [[("k", Value.str "x")], [("k", Value.str "y")]])]⟩ "c"
        [[("$group", Value.doc [("_id", Value.str "$k")])]]
      = .ok [[("_id", Value.str "y")], [("_id", Value.str "x")]]
    ∧ ([[("_id", Value.str "x")], [("_id", Value.str "y")]] : List Doc)
      ≠ [[("_id", Value.str "y")], [("_id", Value.str "x")]] := by
  have hval : validateStage "$group" [("_id", Value.str "$k")] = .ok () := by
    unfold validateStage
    simp [validateGroupStage, validateGroupStage.go, Doc.find?, List.lookup]
  refine ⟨idSched_valid, revSched_valid, ?_, ?_, by decide⟩
  · simp [Query, parseAggregationStagesJSON, parseStageObj, mkParamsMap, hval,
      DB.Collection, List.lookup, runStages, dispatchStage, bindE_ok, bindE_error,
      Except.toOption, groupStage, groupIDFieldOf, aggExpressionsOf, buildGroups,
      appendGroup, processGroup, idSched, strStartsWith, strStartsWith.go, strDrop,
      List.asString, Doc.find?, List.mapM.loop, List.foldlM, Value.comparable,
      pureE_bind, pure, Except.pure]
  · simp [Query, parseAggregationStagesJSON, parseStageObj, mkParamsMap, hval,
      DB.Collection, List.lookup, runStages, dispatchStage, bindE_ok, bindE_error,
      Except.toOption, groupStage, groupIDFieldOf, aggExpressionsOf, buildGroups,
      appendGroup, processGroup, revSched, strStartsWith, strStartsWith.go, strDrop,
      List.asString, Doc.find?, List.mapM.loop, List.foldlM, Value.comparable,
      pureE_bind, pure, Except.pure]

/-- C3 (amended): `$group` is deterministic only *up to permutation* of its
output documents.  For any two possible executions (valid schedules), when
every aggregation expression has at most one operator and `$addToSet` is
not used, either both runs fail with the same error, or both succeed with
outputs that are permutations of each other.  (Document contents are equal;
only the emission order — the Go map-iteration order — varies.  With
several operators in one expression object, or `$addToSet`, even the
contents can differ; and a multi-key `$sort` iterates its criteria map
inside the comparator, which is order-sensitive as well.) -/
theorem group_perm_determinism (F : GoFloatOps) (σ₁ σ₂ : Sched)
    (h₁ : ValidSched σ₁) (h₂ : ValidSched σ₂) (input : List Doc) (params : Doc)
    (hsimple : ∀ fe ∈ aggExpressionsOf params,
      fe.2.length ≤ 1 ∧ ∀ ov ∈ fe.2, ov.1 ≠ "$addToSet") :
    (∃ e, groupStage F σ₁ input params = .error e
        ∧ groupStage F σ₂ input params = .error e)
    ∨ (∃ l₁ l₂, groupStage F σ₁ input params = .ok l₁
        ∧ groupStage F σ₂ input params = .ok l₂ ∧ l₁.Perm l₂) := by
  cases hbg : buildGroups (groupIDFieldOf params) input [] with
  | error e =>
    exact Or.inl ⟨e, by simp [groupStage, hbg, bindE_error],
      by simp [groupStage, hbg, bindE_error]⟩
  | ok groups =>
    right
    have hex := fun g => processGroup_indep F σ₁ σ₂ h₁ h₂
      (aggExpressionsOf params) g hsimple
    choose pg hpg₁ hpg₂ using hex
    have e₁ : groupStage F σ₁ input params = .ok ((σ₁.groupOrder groups).map pg) := by
      simp only [groupStage, hbg, bindE_ok]
      show List.mapM.loop _ _ [] = _
      rw [mapM_ok _ pg hpg₁]
      rfl
    have e₂ : groupStage F σ₂ input params = .ok ((σ₂.groupOrder groups).map pg) := by
      simp only [groupStage, hbg, bindE_ok]
      show List.mapM.loop _ _ [] = _
      rw [mapM_ok _ pg hpg₂]
      rfl
    exact ⟨_, _, e₁, e₂, List.Perm.map pg ((h₁.2.1 groups).trans (h₂.2.1 groups).symm)⟩

/-- C3 witness: the counterexample's two runs are indeed permutations of
each other. -/
theorem group_perm_determinism_witness :
    (∃ e, groupStage F0 idSched [[("k", Value.str "x")], [("k", Value.str "y")]]
          [("_id", Value.str "$k")] = .error e
        ∧ groupStage F0 revSched [[("k", Value.str "x")], [("k", Value.str "y")]]
          [("_id", Value.str "$k")] = .error e)
    ∨ (∃ l₁ l₂, groupStage F0 idSched [[("k", Value.str "x")], [("k", Value.str "y")]]
          [("_id", Value.str "$k")] = .ok l₁
        ∧ groupStage F0 revSched [[("k", Value.str "x")], [("k", Value.str "y")]]
          [("_id", Value.str "$k")] = .ok l₂ ∧ l₁.Perm l₂) :=
  group_perm_determinism F0 idSched revSched idSched_valid revSched_valid
    [[("k", Value.str "x")], [("k", Value.str "y")]] [("_id", Value.str "$k")]
    (by intro fe hfe; simp [aggExpressionsOf] at hfe)

/-! ## C8: `$sort` stability and idempotence

Generic facts about the modelled `sort.SliceStable` (`insSort`): a filter by
any class on which the comparator never fires is preserved (stability), and
for an asymmetric comparator the output is locally sorted, so re-sorting it
is the identity (idempotence). -/

section StableSort

variable {α : Type} (less : α → α → Bool) (q : α → Bool)

lemma insertLast_filter_pos (e : α) (he : q e = true) :
    ∀ acc : List α, (∀ x ∈ acc, q x = true → less e x = false) →
      (insertLast less e acc).filter q = e :: acc.filter q := by
  intro acc
  induction acc with
  | nil => intro _; simp [insertLast, he]
  | cons x xs ih =>
    intro hall
    by_cases hx : q x = true
    · have : less e x = false := hall x (List.mem_cons_self _ _) hx
      simp [insertLast, this, he, hx, List.filter]
    · cases hle : less e x with
      | true =>
        have hx' : q x = false := by simpa using hx
        have := ih (fun y hy hqy => hall y (List.mem_cons_of_mem _ hy) hqy)
        simp [insertLast, hle, List.filter, hx', this]
      | false => simp [insertLast, hle, List.filter, he]

lemma insertLast_filter_neg (e : α) (he : q e = false) :
    ∀ acc : List α, (insertLast less e acc).filter q = acc.filter q := by
  intro acc
  induction acc with
  | nil => simp [insertLast, he]
  | cons x xs ih =>
    cases hle : less e x with
    | true => simp [insertLast, hle, List.filter, ih]
    | false => simp [insertLast, hle, List.filter, he]

lemma sortCore_filter (hq : ∀ a b, q a = true → q b = true → less a b = false) :
    ∀ (ds acc : List α),
      (sortCore less acc ds).filter q = (ds.filter q).reverse ++ acc.filter q := by
  intro ds
  induction ds with
  | nil => intro acc; simp [sortCore]
  | cons d ds ih =>
    intro acc
    show (sortCore less (insertLast less d acc) ds).filter q = _
    rw [ih (insertLast less d acc)]
    by_cases hd : q d = true
    · rw [insertLast_filter_pos less q d hd acc (fun x _ hx => hq d x hd hx)]
      simp [List.filter, hd]
    · have hd' : q d = false := by simpa using hd
      rw [insertLast_filter_neg less q d hd' acc]
      simp [List.filter, hd']

lemma insSort_filter (hq : ∀ a b, q a = true → q b = true → less a b = false)
    (l : List α) : (insSort less l).filter q = l.filter q := by
  unfold insSort
  rw [List.filter_reverse, sortCore_filter less q hq l []]
  simp

lemma insertLast_chain (hasym : ∀ a b, less a b = true → less b a = false) (e : α) :
    ∀ acc : List α, List.Chain' (fun a b => less a b = false) acc →
      List.Chain' (fun a b => less a b = false) (insertLast less e acc) := by
  intro acc
  induction acc with
  | nil => intro _; simp [insertLast]
  | cons x xs ih =>
    intro hchain
    cases hle : less e x with
    | false =>
      simp only [insertLast, hle, if_false, Bool.false_eq_true]
      exact List.Chain'.cons hle hchain
    | true =>
      simp only [insertLast, hle, if_true]
      have htail := (List.chain'_cons'.mp hchain).2
      have hih := ih htail
      apply List.chain'_cons'.mpr
      refine ⟨?_, hih⟩
      intro y hy
      cases xs with
      | nil =>
        simp only [insertLast, List.head?_cons, Option.mem_some_iff] at hy
        subst hy
        exact hasym e x hle
      | cons z zs =>
        simp only [insertLast] at hy
        cases hlez : less e z with
        | true =>
          simp only [hlez, if_true, List.head?_cons, Option.mem_some_iff] at hy
          subst hy
          exact (List.chain'_cons'.mp hchain).1 z rfl
        | false =>
          simp only [hlez, Bool.false_eq_true, if_false, List.head?_cons,
            Option.mem_some_iff] at hy
          subst hy
          exact hasym e x hle

lemma sortCore_chain (hasym : ∀ a b, less a b = true → less b a = false) :
    ∀ (ds acc : List α), List.Chain' (fun a b => less a b = false) acc →
      List.Chain' (fun a b => less a b = false) (sortCore less acc ds) := by
  intro ds
  induction ds with
  | nil => intro acc h; exact h
  | cons d ds ih =>
    intro acc h
    exact ih (insertLast less d acc) (insertLast_chain less hasym d acc h)

lemma insSort_chain (hasym : ∀ a b, less a b = true → less b a = false) (l : List α) :
    List.Chain' (fun a b => less b a = false) (insSort less l) := by
  unfold insSort
  rw [List.chain'_reverse]
  exact sortCore_chain less hasym l [] List.chain'_nil

lemma sortCore_sorted :
    ∀ (ds acc : List α),
      (∀ a, acc.head? = some a → ∀ d, ds.head? = some d → less d a = false) →
      List.Chain' (fun a b => less b a = false) ds →
      sortCore less acc ds = ds.reverse ++ acc := by
  intro ds
  induction ds with
  | nil => intro acc _ _; simp [sortCore]
  | cons d ds ih =>
    intro acc hha hchain
    have hins : insertLast less d acc = d :: acc := by
      cases acc with
      | nil => rfl
      | cons a as =>
        have : less d a = false := hha a rfl d rfl
        simp [insertLast, this]
    show sortCore less (insertLast less d acc) ds = _
    rw [hins, ih (d :: acc)
      (fun a ha d' hd' => by
        simp only [List.head?_cons, Option.some.injEq] at ha
        subst ha
        exact (List.chain'_cons'.mp hchain).1 d' hd')
      (List.chain'_cons'.mp hchain).2]
    simp

lemma insSort_sorted_id (l : List α)
    (h : List.Chain' (fun a b => less b a = false) l) : insSort less l = l := by
  unfold insSort
  rw [sortCore_sorted less l [] (by intro a ha; cases ha) h]
  simp

lemma insSort_idem (hasym : ∀ a b, less a b = true → less b a = false) (l : List α) :
    insSort less (insSort less l) = insSort less l :=
  insSort_sorted_id less _ (insSort_chain less hasym l)

end StableSort

/-! Reduction of `stableGo` to `insSort` on at most 20 elements: there the
block phase is a single whole-array `insertionSort` and the merging phase is
skipped, and Go's index-based insertion sort is the list-based `insSort`. -/

lemma insertLast_length {α : Type} (less : α → α → Bool) (e : α) :
    ∀ acc : List α, (insertLast less e acc).length = acc.length + 1 := by
  intro acc
  induction acc with
  | nil => rfl
  | cons x xs ih =>
    simp only [insertLast]
    by_cases h : less e x = true
    · simp [h, ih]
    · simp only [h, if_false]
      simp

lemma sortCore_length {α : Type} (less : α → α → Bool) :
    ∀ (ds acc : List α), (sortCore less acc ds).length = acc.length + ds.length := by
  intro ds
  induction ds with
  | nil => intro acc; simp [sortCore]
  | cons d ds ih =>
    intro acc
    show (sortCore less (insertLast less d acc) ds).length = _
    rw [ih, insertLast_length]
    simp [Nat.add_assoc, Nat.add_comm 1]

lemma insSort_length {α : Type} (less : α → α → Bool) (l : List α) :
    (insSort less l).length = l.length := by
  unfold insSort
  rw [List.length_reverse, sortCore_length]
  simp

lemma dget_append (Q : List Doc) (y : Doc) (r : List Doc) :
    dget (Q ++ y :: r) Q.length = y := by
  simp [dget, List.getElem?_append_right (Nat.le_refl _)]

lemma dget_append_succ (Q : List Doc) (y z : Doc) (r : List Doc) :
    dget (Q ++ y :: z :: r) (Q.length + 1) = z := by
  have : dget (Q ++ y :: z :: r) (Q.length + 1)
      = dget ((Q ++ [y]) ++ z :: r) (Q ++ [y]).length := by
    simp [List.append_assoc]
  rw [this, dget_append]

lemma set_append_len (Q : List Doc) (y a : Doc) (r : List Doc) :
    (Q ++ y :: r).set Q.length a = Q ++ a :: r := by
  induction Q with
  | nil => rfl
  | cons q qs ih => simp [List.set, ih]

lemma set_append_len_succ (Q : List Doc) (y z a : Doc) (r : List Doc) :
    (Q ++ y :: z :: r).set (Q.length + 1) a = Q ++ y :: a :: r := by
  have h1 : (Q ++ y :: z :: r) = (Q ++ [y]) ++ z :: r := by simp
  have h2 : (Q ++ y :: a :: r) = (Q ++ [y]) ++ a :: r := by simp
  rw [h1, h2, show Q.length + 1 = (Q ++ [y]).length by simp, set_append_len]

lemma swapList_adj (Q : List Doc) (y z : Doc) (r : List Doc) :
    swapList (Q ++ y :: z :: r) (Q.length + 1) Q.length = Q ++ z :: y :: r := by
  have hy : (Q ++ y :: z :: r)[Q.length]? = some y := by
    simp [List.getElem?_append_right (Nat.le_refl _)]
  have hz : (Q ++ y :: z :: r)[Q.length + 1]? = some z := by
    rw [List.getElem?_append_right (by omega),
      show Q.length + 1 - Q.length = 1 by omega]
    simp
  simp only [swapList, hy, hz]
  rw [set_append_len_succ, set_append_len]

/-- Go's bubbling loop on a list split as `P ++ e :: S` (the element to
place at position `|P|`) is `insertLast` on the reversed prefix. -/
lemma insBubble_insertLast (less : Doc → Doc → Bool) :
    ∀ (P S : List Doc) (e : Doc),
      insBubble less 0 P.length (P ++ e :: S)
        = (insertLast less e P.reverse).reverse ++ S := by
  intro P
  induction P using List.reverseRecOn with
  | nil => intro S e; simp [insBubble, insertLast]
  | append_singleton Q x ih =>
    intro S e
    have hlen : (Q ++ [x]).length = Q.length + 1 := by simp
    rw [hlen]
    have hassoc : (Q ++ [x]) ++ e :: S = Q ++ x :: e :: S := by simp
    rw [hassoc]
    show (if 0 < Q.length + 1 ∧
        less (dget (Q ++ x :: e :: S) (Q.length + 1)) (dget (Q ++ x :: e :: S) Q.length) = true
      then insBubble less 0 Q.length (swapList (Q ++ x :: e :: S) (Q.length + 1) Q.length)
      else (Q ++ x :: e :: S)) = _
    rw [dget_append_succ, dget_append]
    by_cases hle : less e x = true
    · rw [if_pos ⟨Nat.succ_pos _, hle⟩, swapList_adj, ih (x :: S) e]
      simp [insertLast, hle]
    · rw [if_neg (by simp [hle])]
      simp only [List.reverse_append, List.reverse_cons, List.reverse_nil,
        List.nil_append, List.singleton_append, insertLast]
      rw [if_neg (by simp [hle])]
      simp

/-- The outer loop, started with `acc` already placed, is `sortCore`. -/
lemma insLoop_sortCore (less : Doc → Doc → Bool) :
    ∀ (ds acc : List Doc),
      insLoop less 0 (acc.length + ds.length) acc.length (acc.reverse ++ ds)
        = (sortCore less acc ds).reverse := by
  intro ds
  induction ds with
  | nil =>
    intro acc
    unfold insLoop
    simp [sortCore]
  | cons e ds ih =>
    intro acc
    unfold insLoop
    rw [if_pos (by simp)]
    have hb : insBubble less 0 acc.length (acc.reverse ++ e :: ds)
        = (insertLast less e acc).reverse ++ ds := by
      have := insBubble_insertLast less acc.reverse ds e
      simpa using this
    rw [hb]
    have hlen2 : acc.length + (e :: ds).length = (insertLast less e acc).length + ds.length := by
      rw [insertLast_length]; simp; omega
    have hi : acc.length + 1 = (insertLast less e acc).length := by
      rw [insertLast_length]
    rw [hlen2, hi, ih (insertLast less e acc)]
    rfl

/-- Go's whole-array `insertionSort(data, 0, n)` is the list insertion sort. -/
lemma insertionSortGo_insSort (less : Doc → Doc → Bool) (l : List Doc) :
    insertionSortGo less 0 l.length l = insSort less l := by
  cases l with
  | nil =>
    unfold insertionSortGo insLoop
    simp [insSort, sortCore]
  | cons d ds =>
    show insLoop less 0 (d :: ds).length 1 (d :: ds) = _
    have h1 : (d :: ds).length = ([d] : List Doc).length + ds.length := by simp; omega
    have h2 : (1 : ℕ) = ([d] : List Doc).length := rfl
    have h3 : (d :: ds) = ([d] : List Doc).reverse ++ ds := rfl
    rw [h1, h2, h3, insLoop_sortCore less ds [d]]
    rfl

/-- On at most 20 elements `stable` runs exactly one whole-array insertion
sort and no merge pass. -/
lemma stableGo_small (less : Doc → Doc → Bool) (l : List Doc)
    (h : l.length ≤ 20) : stableGo less l = insSort less l := by
  unfold stableGo
  have hblocks : stableBlocksLoop less l.length 0 20 l = insSort less l := by
    by_cases h20 : l.length = 20
    · unfold stableBlocksLoop
      rw [if_pos (by omega)]
      unfold stableBlocksLoop
      rw [if_neg (by omega)]
      show insLoop less 20 l.length 21 (insertionSortGo less 0 20 l) = _
      unfold insLoop
      rw [if_neg (by omega)]
      rw [show (20 : ℕ) = l.length from h20.symm, insertionSortGo_insSort]
    · unfold stableBlocksLoop
      rw [if_neg (by omega)]
      exact insertionSortGo_insSort less l
  rw [hblocks]
  unfold mergePhase
  rw [dif_neg (by omega)]

/-- `sortStage` on at most 20 documents, reduced to the insertion sort. -/
lemma sortStage_small (F : GoFloatOps) (σ : Sched) (input : List Doc) (params : Doc)
    (h : input.length ≤ 20) :
    sortStage F σ input params = insSort (sortLess F (σ.mapOrder params)) input :=
  stableGo_small _ input h

/-- Two documents with equal raw values at every sort-key field never
compare less-than (both criteria paths — numeric and formatted-string —
see identical operands and recurse). -/
lemma sortLess_keyVec_eq (F : GoFloatOps) :
    ∀ (crit : List (String × Value)) (a b : Doc),
      (∀ c ∈ crit, (Doc.find? a c.1).getD .null = (Doc.find? b c.1).getD .null) →
      sortLess F crit a b = false := by
  intro crit
  induction crit with
  | nil => intro a b _; rfl
  | cons c rest ih =>
    intro a b hall
    obtain ⟨field, dir⟩ := c
    have hv : (Doc.find? a field).getD .null = (Doc.find? b field).getD .null :=
      hall (field, dir) (List.mem_cons_self _ _)
    have hrest := fun cc hcc => hall cc (List.mem_cons_of_mem _ hcc)
    cases dir with
    | num dq =>
      simp only [sortLess, hv]
      cases toFloat64 ((Doc.find? b field).getD .null) with
      | some jn => simp [ih a b hrest]
      | none => simp [ih a b hrest]
    | null => exact ih a b hrest
    | bool x => exact ih a b hrest
    | str x => exact ih a b hrest
    | arr x => exact ih a b hrest
    | doc x => exact ih a b hrest

/-- The sort comparator is asymmetric: for any criteria order, any float
model and any pair of documents, at the first deciding criterion the two
directions disagree. -/
lemma sortLess_asymm (F : GoFloatOps) :
    ∀ (crit : List (String × Value)) (a b : Doc),
      sortLess F crit a b = true → sortLess F crit b a = false := by
  intro crit
  induction crit with
  | nil => intro a b h; exact absurd h (by simp [sortLess])
  | cons c rest ih =>
    intro a b h
    obtain ⟨field, dir⟩ := c
    cases dir with
    | num dq =>
      simp only [sortLess] at h ⊢
      cases hia : toFloat64 ((Doc.find? a field).getD .null) with
      | some iNum =>
        cases hjb : toFloat64 ((Doc.find? b field).getD .null) with
        | some jNum =>
          simp only [hia, hjb] at h ⊢
          by_cases heq : iNum = jNum
          · simp only [heq, if_pos rfl] at h ⊢
            exact ih a b h
          · rw [if_neg heq] at h
            rw [if_neg (fun hh => heq hh.symm)]
            by_cases hdq : dq = 1
            · rw [if_pos hdq] at h
              rw [if_pos hdq]
              simp at h ⊢
              linarith
            · rw [if_neg hdq] at h
              rw [if_neg hdq]
              simp at h ⊢
              linarith
        | none =>
          simp only [hia, hjb] at h ⊢
          by_cases heq : goFmtV F ((Doc.find? a field).getD .null)
              = goFmtV F ((Doc.find? b field).getD .null)
          · simp only [heq, if_pos rfl] at h ⊢
            exact ih a b h
          · rw [if_neg heq] at h
            rw [if_neg (fun hh => heq hh.symm)]
            by_cases hdq : dq = 1
            · rw [if_pos hdq] at h
              rw [if_pos hdq]
              simp at h ⊢
              exact le_of_lt h
            · rw [if_neg hdq] at h
              rw [if_neg hdq]
              simp at h ⊢
              exact le_of_lt h
      | none =>
        simp only [hia] at h ⊢
        cases hjb : toFloat64 ((Doc.find? b field).getD .null) with
        | some jNum =>
          simp only [hia, hjb] at h ⊢
          by_cases heq : goFmtV F ((Doc.find? a field).getD .null)
              = goFmtV F ((Doc.find? b field).getD .null)
          · simp only [heq, if_pos rfl] at h ⊢
            exact ih a b h
          · rw [if_neg heq] at h
            rw [if_neg (fun hh => heq hh.symm)]
            by_cases hdq : dq = 1
            · rw [if_pos hdq] at h
              rw [if_pos hdq]
              simp at h ⊢
              exact le_of_lt h
            · rw [if_neg hdq] at h
              rw [if_neg hdq]
              simp at h ⊢
              exact le_of_lt h
        | none =>
          simp only [hia, hjb] at h ⊢
          by_cases heq : goFmtV F ((Doc.find? a field).getD .null)
              = goFmtV F ((Doc.find? b field).getD .null)
          · simp only [heq, if_pos rfl] at h ⊢
            exact ih a b h
          · rw [if_neg heq] at h
            rw [if_neg (fun hh => heq hh.symm)]
            by_cases hdq : dq = 1
            · rw [if_pos hdq] at h
              rw [if_pos hdq]
              simp at h ⊢
              exact le_of_lt h
            · rw [if_neg hdq] at h
              rw [if_neg hdq]
              simp at h ⊢
              exact le_of_lt h
    | null => exact ih a b h
    | bool x => exact ih a b h
    | str x => exact ih a b h
    | arr x => exact ih a b h
    | doc x => exact ih a b h

/-- The raw values the `sortLess` comparator reads from a document, one per
criterion in the comparator's iteration order (`(Doc.find? d field).getD
.null`, exactly the comparator's own access). -/
def sortKeyVec (crit : List (String × Value)) (d : Doc) : List Value :=
  crit.map (fun c => (Doc.find? d c.1).getD .null)

/-- C8 counterexample: the `$sort` comparator ranges over the criteria
*map* inside the closure, so the criteria order is a map-iteration order
redrawn on every sort call.  Sorting `[{a:1,b:2}, {a:2,b:1}]` by
`{a:1, b:1}` under `idSched` (criterion `a` first) leaves the input as is;
re-sorting that already-sorted sequence by the *same specification* under
the equally-possible `revSched` (criterion `b` first) swaps the rows.
Idempotence fails across executions. -/
theorem sort_cross_execution_counterexample :
    ValidSched idSched ∧ ValidSched revSched
    ∧ sortStage F0 idSched
        [[("a", Value.num 1), ("b", Value.num 2)],
         [("a", Value.num 2), ("b", Value.num 1)]]
        [("a", Value.num 1), ("b", Value.num 1)]
      = [[("a", Value.num 1), ("b", Value.num 2)],
         [("a", Value.num 2), ("b", Value.num 1)]]
    ∧ sortStage F0 revSched
        (sortStage F0 idSched
          [[("a", Value.num 1), ("b", Value.num 2)],
           [("a", Value.num 2), ("b", Value.num 1)]]
          [("a", Value.num 1), ("b", Value.num 1)])
        [("a", Value.num 1), ("b", Value.num 1)]
      = [[("a", Value.num 2), ("b", Value.num 1)],
         [("a", Value.num 1), ("b", Value.num 2)]]
    ∧ ([[("a", Value.num 2), ("b", Value.num 1)],
        [("a", Value.num 1), ("b", Value.num 2)]] : List Doc)
      ≠ [[("a", Value.num 1), ("b", Value.num 2)],
         [("a", Value.num 2), ("b", Value.num 1)]] := by
  refine ⟨idSched_valid, revSched_valid, ?_, ?_, by decide⟩
  · rw [sortStage_small F0 idSched _ _ (by decide)]
    decide
  · rw [sortStage_small F0 idSched _ _ (by decide)]
    rw [sortStage_small F0 revSched _ _ (by decide)]
    decide

/-- C8 (amended): within one execution — one iteration order of the
criteria map — `$sort` is stable and idempotent on inputs of at most 20
documents, where `sort.SliceStable` is exactly one whole-array insertion
sort: documents whose raw values at every compared key field are all equal
keep their relative input order (their subsequence is untouched), and
re-sorting the output with the same criteria order returns it unchanged
(the comparator is asymmetric, so the output is locally sorted and every
insertion is immediate).  Beyond 20 documents the symmerge path depends on
binary searches whose behaviour under the comparator's numeric/string
fallback — not a strict weak order — is not covered by this theorem; and
across executions the criteria order is redrawn and idempotence fails — see
the counterexample. -/
theorem sort_stable_and_idem (F : GoFloatOps) (σ : Sched) (input : List Doc)
    (params : Doc) (hlen : input.length ≤ 20) :
    (∀ V : List Value,
      (sortStage F σ input params).filter
        (fun d => decide (sortKeyVec (σ.mapOrder params) d = V))
      = input.filter (fun d => decide (sortKeyVec (σ.mapOrder params) d = V)))
    ∧ sortStage F σ (sortStage F σ input params) params
      = sortStage F σ input params := by
  have hred : sortStage F σ input params
      = insSort (sortLess F (σ.mapOrder params)) input :=
    sortStage_small F σ input params hlen
  constructor
  · intro V
    rw [hred]
    apply insSort_filter
    intro a b ha hb
    have hab : sortKeyVec (σ.mapOrder params) a = sortKeyVec (σ.mapOrder params) b :=
      (of_decide_eq_true ha).trans (of_decide_eq_true hb).symm
    exact sortLess_keyVec_eq F (σ.mapOrder params) a b
      (fun c hc => List.map_eq_map_iff.mp hab c hc)
  · have hlen2 : (sortStage F σ input params).length ≤ 20 := by
      rw [hred, insSort_length]; exact hlen
    rw [sortStage_small F σ _ params hlen2, hred,
      insSort_idem _ (sortLess_asymm F (σ.mapOrder params)) input]

/-- C8 witness: a two-document single-key sort, filtered by one key value
and re-sorted. -/
theorem sort_stable_and_idem_witness :
    ((sortStage F0 idSched [[("a", Value.num 2)], [("a", Value.num 1)]]
        [("a", Value.num 1)]).filter
      (fun d => decide (sortKeyVec (idSched.mapOrder [("a", Value.num 1)]) d
        = [Value.num 1]))
      = [[("a", Value.num 2)], [("a", Value.num 1)]].filter
        (fun d => decide (sortKeyVec (idSched.mapOrder [("a", Value.num 1)]) d
          = [Value.num 1])))
    ∧ sortStage F0 idSched
        (sortStage F0 idSched [[("a", Value.num 2)], [("a", Value.num 1)]]
          [("a", Value.num 1)])
        [("a", Value.num 1)]
      = sortStage F0 idSched [[("a", Value.num 2)], [("a", Value.num 1)]]
        [("a", Value.num 1)] :=
  ⟨(sort_stable_and_idem F0 idSched [[("a", Value.num 2)], [("a", Value.num 1)]]
      [("a", Value.num 1)] (by decide)).1 [Value.num 1],
   (sort_stable_and_idem F0 idSched [[("a", Value.num 2)], [("a", Value.num 1)]]
      [("a", Value.num 1)] (by decide)).2⟩

end Marco
